import Mathlib

/-!
Verification of the proxy-ai-fusion request-routing data plane.

The Rust sources are shallowly embedded below:

* `src/routing/load_balancer.rs` — health-tracking load balancer
  (`ServiceLBConfig`, `applyAutoReset`, `cleanupManualDisabled`,
  `selectWeightedConfig`, `selectConfigLB`, `recordResult`);
* `src/proxy/proxy_service.rs` — forwarder (`buildHeaders`, `selectConfigPS`);
* `src/main.rs` — the terminal stage of `proxy_handler`
  (`proxyHandlerBalancerUpdate`);
* `src/logging/usage_parser.rs` — usage extraction
  (`extractClaudeUsage`, `extractOpenaiUsage`, `extractFromSseStream`,
  `extractUsageFromResponse`);
* `src/logging/request_logger.rs` — the ledger (`logRequest`,
  `maintainLogLimit`, `getLogs`, `getLogById`);
* `src/config/config_manager.rs` — `loadConfigs`.

Conventions: Rust `HashMap`s are embedded as association lists whose
`insert` replaces any existing binding (iteration order of a `HashMap`
is never observed by the embedded code paths).  `f64` weights and
wall-clock seconds are embedded as `ℚ`.  SQLite TEXT ordering and Rust
`str::cmp` are embedded as byte-lexicographic order on the character
codes (all compared strings in the claims are ASCII).  File I/O
(`check_and_reload`, `save_config`) is identity in the in-memory model.
-/

/-- Association-list lookup, the embedding of `HashMap::get`. -/
def alookup {α : Type} : List (String × α) → String → Option α
  | [], _ => none
  | p :: ps, k => if p.1 = k then some p.2 else alookup ps k

/-- Association-list removal, the embedding of `HashMap::remove`. -/
def aerase {α : Type} : List (String × α) → String → List (String × α)
  | [], _ => []
  | p :: ps, k => if p.1 = k then aerase ps k else p :: aerase ps k

/-- Association-list insertion, the embedding of `HashMap::insert`
(replaces any existing binding for the key). -/
def ains {α : Type} (l : List (String × α)) (k : String) (v : α) : List (String × α) :=
  aerase l k ++ [(k, v)]

theorem aerase_sublist {α : Type} (l : List (String × α)) (k : String) :
    (aerase l k).Sublist l := by
  induction l with
  | nil => simp [aerase]
  | cons p ps ih =>
    by_cases h : p.1 = k
    · simpa [aerase, h] using ih.cons p
    · simpa [aerase, h] using ih.cons₂ p

theorem alookup_append {α : Type} (l₁ l₂ : List (String × α)) (k : String) :
    alookup (l₁ ++ l₂) k =
      match alookup l₁ k with
      | some v => some v
      | none => alookup l₂ k := by
  induction l₁ with
  | nil => simp [alookup]
  | cons p ps ih =>
    by_cases h : p.1 = k
    · simp [alookup, h]
    · simpa [alookup, h] using ih

theorem alookup_aerase_self {α : Type} (l : List (String × α)) (k : String) :
    alookup (aerase l k) k = none := by
  induction l with
  | nil => rfl
  | cons p ps ih =>
    by_cases h : p.1 = k
    · simpa [aerase, h] using ih
    · simpa [aerase, alookup, h] using ih

theorem alookup_aerase_ne {α : Type} (l : List (String × α)) (k k' : String)
    (h : k' ≠ k) : alookup (aerase l k) k' = alookup l k' := by
  induction l with
  | nil => rfl
  | cons p ps ih =>
    by_cases hp : p.1 = k
    · have hp' : ¬ p.1 = k' := by rw [hp]; exact fun hk => h hk.symm
      simp only [aerase, hp, if_true, alookup, hp', if_false, Ne.symm h]
      simpa [Ne.symm h] using ih
    · by_cases hp' : p.1 = k'
      · simp [aerase, hp, alookup, hp', h]
      · simp only [aerase, hp, if_false, alookup, hp']
        exact ih

theorem alookup_ains_self {α : Type} (l : List (String × α)) (k : String) (v : α) :
    alookup (ains l k v) k = some v := by
  simp [ains, alookup_append, alookup_aerase_self, alookup]

theorem alookup_ains_ne {α : Type} (l : List (String × α)) (k k' : String) (v : α)
    (h : k' ≠ k) : alookup (ains l k v) k' = alookup l k' := by
  rw [ains, alookup_append, alookup_aerase_ne l k k' h]
  cases hl : alookup l k' with
  | some w => rfl
  | none => simp [alookup, Ne.symm h]

/-- Byte-lexicographic strict order on character lists; embeds Rust
`str::cmp` (and SQLite BINARY collation) for the ASCII strings compared
by the program. -/
def byteLt : List Char → List Char → Bool
  | [], [] => false
  | [], _ :: _ => true
  | _ :: _, [] => false
  | a :: as, b :: bs =>
    decide (a.val.toNat < b.val.toNat)
      || (decide (a.val.toNat = b.val.toNat) && byteLt as bs)

/-- Strict byte-lexicographic order on strings. -/
def strLtB (a b : String) : Bool := byteLt a.data b.data

/-- Non-strict byte-lexicographic order on strings. -/
def strLeB (a b : String) : Bool := strLtB a b || a == b

theorem byteLt_irrefl (l : List Char) : byteLt l l = false := by
  induction l with
  | nil => rfl
  | cons a as ih => simp [byteLt, ih]

theorem byteLt_trans {a b c : List Char} (h₁ : byteLt a b = true)
    (h₂ : byteLt b c = true) : byteLt a c = true := by
  induction a generalizing b c with
  | nil =>
    cases b with
    | nil => simp [byteLt] at h₁
    | cons y ys =>
      cases c with
      | nil => simp [byteLt] at h₂
      | cons z zs => simp [byteLt]
  | cons x xs ih =>
    cases b with
    | nil => simp [byteLt] at h₁
    | cons y ys =>
      cases c with
      | nil => simp [byteLt] at h₂
      | cons z zs =>
        simp only [byteLt, Bool.or_eq_true, Bool.and_eq_true, decide_eq_true_eq] at h₁ h₂ ⊢
        rcases h₁ with h₁ | ⟨h₁e, h₁r⟩
        · rcases h₂ with h₂ | ⟨h₂e, h₂r⟩
          · exact Or.inl (Nat.lt_trans h₁ h₂)
          · exact Or.inl (h₂e ▸ h₁)
        · rcases h₂ with h₂ | ⟨h₂e, h₂r⟩
          · exact Or.inl (h₁e ▸ h₂)
          · exact Or.inr ⟨h₁e.trans h₂e, ih h₁r h₂r⟩

theorem byteLt_trichotomy (a b : List Char) :
    byteLt a b = true ∨ a = b ∨ byteLt b a = true := by
  induction a generalizing b with
  | nil =>
    cases b with
    | nil => exact Or.inr (Or.inl rfl)
    | cons y ys => exact Or.inl (by simp [byteLt])
  | cons x xs ih =>
    cases b with
    | nil => exact Or.inr (Or.inr (by simp [byteLt]))
    | cons y ys =>
      rcases Nat.lt_trichotomy x.val.toNat y.val.toNat with h | h | h
      · exact Or.inl (by simp [byteLt, h])
      · have hxy : x = y := Char.ext (UInt32.ext h)
        rcases ih ys with h' | h' | h'
        · exact Or.inl (by simp [byteLt, h, h'])
        · exact Or.inr (Or.inl (by rw [hxy, h']))
        · exact Or.inr (Or.inr (by simp [byteLt, h.symm, h', hxy]))
      · exact Or.inr (Or.inr (by simp [byteLt, h]))

theorem strLeB_total (a b : String) : strLeB a b = true ∨ strLeB b a = true := by
  rcases byteLt_trichotomy a.data b.data with h | h | h
  · exact Or.inl (by simp [strLeB, strLtB, h])
  · exact Or.inl (by simp [strLeB, strLtB, String.ext h])
  · exact Or.inr (by simp [strLeB, strLtB, h])

theorem strLeB_trans {a b c : String} (h₁ : strLeB a b = true)
    (h₂ : strLeB b c = true) : strLeB a c = true := by
  simp only [strLeB, strLtB, Bool.or_eq_true, beq_iff_eq] at h₁ h₂ ⊢
  rcases h₁ with h₁ | h₁
  · rcases h₂ with h₂ | h₂
    · exact Or.inl (byteLt_trans h₁ h₂)
    · exact Or.inl (h₂ ▸ h₁)
  · rcases h₂ with h₂ | h₂
    · exact Or.inl (h₁ ▸ h₂)
    · exact Or.inr (h₁.trans h₂)

theorem strLtB_of_strLeB_ne {a b : String} (h : strLeB a b = true) (hne : a ≠ b) :
    strLtB a b = true := by
  simp only [strLeB, Bool.or_eq_true, beq_iff_eq] at h
  rcases h with h | h
  · exact h
  · exact absurd h hne

/-- Structural stable insertion used by `sortBy`. -/
def sinsert {α : Type} (le : α → α → Bool) (x : α) : List α → List α
  | [] => [x]
  | y :: ys => if le x y then x :: y :: ys else y :: sinsert le x ys

/-- Structural stable insertion sort; embeds `Vec::sort_by` (used where
the sort must be evaluated by the kernel). -/
def sortBy {α : Type} (le : α → α → Bool) : List α → List α
  | [] => []
  | x :: xs => sinsert le x (sortBy le xs)

theorem sinsert_perm {α : Type} (le : α → α → Bool) (x : α) (l : List α) :
    (sinsert le x l).Perm (x :: l) := by
  induction l with
  | nil => simp [sinsert]
  | cons y ys ih =>
    by_cases h : le x y
    · simp [sinsert, h]
    · simp only [sinsert, h, if_false]
      exact (List.Perm.cons y ih).trans (List.Perm.swap x y ys)

theorem sortBy_perm {α : Type} (le : α → α → Bool) (l : List α) :
    (sortBy le l).Perm l := by
  induction l with
  | nil => simp [sortBy]
  | cons x xs ih =>
    exact (sinsert_perm le x (sortBy le xs)).trans (List.Perm.cons x ih)

theorem sinsert_pairwise {α : Type} {le : α → α → Bool}
    (htrans : ∀ a b c, le a b = true → le b c = true → le a c = true)
    (htot : ∀ a b, le a b = true ∨ le b a = true)
    (x : α) {l : List α} (hl : l.Pairwise (fun a b => le a b = true)) :
    (sinsert le x l).Pairwise (fun a b => le a b = true) := by
  induction l with
  | nil => simp [sinsert]
  | cons y ys ih =>
    rcases List.pairwise_cons.mp hl with ⟨hy, hys⟩
    by_cases h : le x y
    · simp only [sinsert, h, if_true]
      refine List.pairwise_cons.mpr ⟨?_, hl⟩
      intro z hz
      rcases List.mem_cons.mp hz with hz | hz
      · exact hz ▸ h
      · exact htrans x y z h (hy z hz)
    · simp only [sinsert, h, if_false]
      refine List.pairwise_cons.mpr ⟨?_, ih hys⟩
      intro z hz
      have hz' := (sinsert_perm le x ys).mem_iff.mp hz
      rcases List.mem_cons.mp hz' with hz' | hz'
      · rw [hz']
        rcases htot x y with h' | h'
        · exact absurd h' (by simpa using h)
        · exact h'
      · exact hy z hz'

theorem sortBy_pairwise {α : Type} {le : α → α → Bool}
    (htrans : ∀ a b c, le a b = true → le b c = true → le a c = true)
    (htot : ∀ a b, le a b = true ∨ le b a = true) (l : List α) :
    (sortBy le l).Pairwise (fun a b => le a b = true) := by
  induction l with
  | nil => simp [sortBy]
  | cons x xs ih => exact sinsert_pairwise htrans htot x ih

theorem find?_min_of_pairwise {α : Type} {le : α → α → Bool} {q : α → Bool}
    {l : List α} {r : α}
    (hp : l.Pairwise (fun a b => le a b = true)) (hfind : l.find? q = some r) :
    q r = true ∧ ∀ x ∈ l, q x = true → x = r ∨ le r x = true := by
  induction l with
  | nil => simp [List.find?] at hfind
  | cons a tl ih =>
    rcases List.pairwise_cons.mp hp with ⟨ha, htl⟩
    by_cases hqa : q a
    · have hra : r = a := by
        simp [List.find?, hqa] at hfind
        exact hfind.symm
      subst hra
      refine ⟨hqa, ?_⟩
      intro x hx hqx
      rcases List.mem_cons.mp hx with hx | hx
      · exact Or.inl hx
      · exact Or.inr (ha x hx)
    · have hfind' : tl.find? q = some r := by
        simpa [List.find?, hqa] using hfind
      rcases ih htl hfind' with ⟨hqr, hmin⟩
      refine ⟨hqr, ?_⟩
      intro x hx hqx
      rcases List.mem_cons.mp hx with hx | hx
      · exact absurd (hx ▸ hqx) (by simpa using hqa)
      · exact hmin x hx hqx

/-!
## Balancer (`src/routing/load_balancer.rs`)

`ServiceLBConfig` and `LoadBalancerConfig` embed the structs of the same
names.  Wall-clock seconds (`SystemTime::now` as `f64`) are `ℚ`; dates
(`Utc::now().date_naive().to_string()`) are the `today : String`
parameter of each operation.
-/

/-- Per-service balancer state (`ServiceLBConfig`). -/
structure ServiceLBConfig where
  failure_threshold : Nat
  auto_reset_minutes : Nat
  current_failures : List (String × Nat)
  excluded_configs : List String
  excluded_timestamps : List (String × ℚ)
  manual_disabled_until : List (String × String)
deriving DecidableEq, Repr

/-- `ServiceLBConfig::default`. -/
def ServiceLBConfig.default : ServiceLBConfig :=
  { failure_threshold := 3
    auto_reset_minutes := 10
    current_failures := []
    excluded_configs := []
    excluded_timestamps := []
    manual_disabled_until := [] }

/-- `LoadBalancerMode`. -/
inductive LoadBalancerMode where
  | activeFirst
  | weightBased
deriving DecidableEq, Repr

/-- `LoadBalancerConfig`. -/
structure LoadBalancerConfig where
  mode : LoadBalancerMode
  services : List (String × ServiceLBConfig)
deriving DecidableEq, Repr

/-- `LoadBalancerConfig::default` (claude and codex sub-records). -/
def LoadBalancerConfig.default : LoadBalancerConfig :=
  { mode := .activeFirst
    services := [("claude", ServiceLBConfig.default), ("codex", ServiceLBConfig.default)] }

/-- `LoadBalancer::apply_auto_reset`: collect the excluded names whose
exclusion timestamp is at least `auto_reset_minutes * 60` seconds old,
then remove each from `excluded_configs` / `excluded_timestamps` and
zero its failure count.  No-op when `auto_reset_minutes == 0`.
`autoResetStep` is the loop body of the second `for` loop. -/
def autoResetStep (acc : ServiceLBConfig) (name : String) : ServiceLBConfig :=
  { acc with
    excluded_configs := acc.excluded_configs.filter fun x => decide (x ≠ name)
    excluded_timestamps := aerase acc.excluded_timestamps name
    current_failures := ains acc.current_failures name 0 }

def applyAutoReset (now : ℚ) (sc : ServiceLBConfig) : ServiceLBConfig :=
  if sc.auto_reset_minutes = 0 then sc
  else
    let resetDuration : ℚ := (sc.auto_reset_minutes : ℚ) * 60
    let toReset := sc.excluded_configs.filter fun name =>
      match alookup sc.excluded_timestamps name with
      | some ts => decide (resetDuration ≤ now - ts)
      | none => false
    toReset.foldl autoResetStep sc

/-- `LoadBalancer::cleanup_manual_disabled`: keep only the manual-disable
entries whose date is today. -/
def cleanupManualDisabled (today : String) (sc : ServiceLBConfig) : ServiceLBConfig :=
  { sc with
    manual_disabled_until := sc.manual_disabled_until.filter fun p => decide (p.2 = today) }

/-- The availability scan of `select_weighted_config` (the three
`continue` conditions of the loop body, conjoined). -/
def availableName (today : String) (sc : ServiceLBConfig) (name : String) : Bool :=
  (match alookup sc.current_failures name with
   | some failures => decide (failures < sc.failure_threshold)
   | none => true)
  && !(sc.excluded_configs.contains name)
  && (match alookup sc.manual_disabled_until name with
      | some disabledUntil => decide (disabledUntil ≠ today)
      | none => true)

/-- The comparator of `select_weighted_config`: weight descending
(`b.1.partial_cmp(a.1)`), then name ascending (`a.0.cmp(b.0)`). -/
def wLe (a b : String × ℚ) : Bool :=
  decide (b.2 < a.2) || (decide (a.2 = b.2) && strLeB a.1 b.1)

/-- `LoadBalancer::select_weighted_config`. -/
def selectWeightedConfig (today : String) (activeConfig : String)
    (configs : List (String × ℚ)) (sc : ServiceLBConfig) : String :=
  if configs.isEmpty then activeConfig
  else
    let sortedConfigs := sortBy wLe configs
    match sortedConfigs.find? (fun p => availableName today sc p.1) with
    | some p => p.1
    | none =>
      if configs.any (fun p => p.1 == activeConfig) then activeConfig
      else
        match sortedConfigs.head? with
        | some p => p.1
        | none => activeConfig

/-- The lazy sub-record creation at the top of `select_config` and
`record_result` (`services.insert(service, ServiceLBConfig::default)`
when absent). -/
def ensureService (lbc : LoadBalancerConfig) (service : String) : LoadBalancerConfig :=
  if (alookup lbc.services service).isSome then lbc
  else { lbc with services := lbc.services ++ [(service, ServiceLBConfig.default)] }

/-- The per-service state consulted by `select_config` / `record_result`
after the lazy creation step. -/
def svcState (lbc : LoadBalancerConfig) (service : String) : ServiceLBConfig :=
  (alookup (ensureService lbc service).services service).getD ServiceLBConfig.default

/-- `LoadBalancer::select_config` (the in-memory state transition; the
mtime-triggered reload is identity in this model).  Returns the selected
name together with the updated balancer state — the two sweeps mutate
the stored per-service record in place. -/
def selectConfigLB (now : ℚ) (today : String) (lbc : LoadBalancerConfig)
    (service activeConfig : String) (configs : List (String × ℚ)) :
    String × LoadBalancerConfig :=
  let lbc' := ensureService lbc service
  let sc := cleanupManualDisabled today (applyAutoReset now (svcState lbc service))
  let name :=
    match lbc.mode with
    | .activeFirst => activeConfig
    | .weightBased => selectWeightedConfig today activeConfig configs sc
  (name, { lbc' with services := ains lbc'.services service sc })

/-- The outcome branch of `record_result` (after the two sweeps): reset
on success, increment and possibly exclude on failure. -/
def recordUpdate (now : ℚ) (configName : String) (success : Bool)
    (sc : ServiceLBConfig) : ServiceLBConfig :=
  if success then
    { sc with
      current_failures := ains sc.current_failures configName 0
      excluded_configs := sc.excluded_configs.filter fun x => decide (x ≠ configName)
      excluded_timestamps := aerase sc.excluded_timestamps configName }
  else
    let failures := (alookup sc.current_failures configName).getD 0 + 1
    let sc := { sc with current_failures := ains sc.current_failures configName failures }
    if sc.failure_threshold ≤ failures then
      if sc.excluded_configs.contains configName then sc
      else
        { sc with
          excluded_configs := sc.excluded_configs ++ [configName]
          excluded_timestamps := ains sc.excluded_timestamps configName now }
    else sc

/-- `LoadBalancer::record_result` (in-memory; the save-to-disk step is
identity in this model). -/
def recordResult (now : ℚ) (today : String) (lbc : LoadBalancerConfig)
    (service configName : String) (success : Bool) : LoadBalancerConfig :=
  let lbc' := ensureService lbc service
  let sc := cleanupManualDisabled today (applyAutoReset now (svcState lbc service))
  let sc := recordUpdate now configName success sc
  { lbc' with services := ains lbc'.services service sc }

theorem contains_eq_decide_mem (l : List String) (a : String) :
    l.contains a = decide (a ∈ l) := by
  cases h : l.contains a with
  | true =>
    simp only [List.contains, List.elem_iff] at h
    simp [h]
  | false =>
    have : ¬ a ∈ l := by
      intro hmem
      rw [List.contains, (List.elem_iff).mpr hmem] at h
      exact Bool.true_eq_false.mp h
    simp [this]

theorem eq_of_fst_eq_of_nodup {α : Type} {l : List (String × α)}
    (h : (l.map Prod.fst).Nodup) {p q : String × α}
    (hp : p ∈ l) (hq : q ∈ l) (hfst : p.1 = q.1) : p = q := by
  induction l with
  | nil => simp at hp
  | cons a tl ih =>
    rw [List.map_cons] at h
    rcases List.nodup_cons.mp h with ⟨hhead', htl⟩
    rcases List.mem_cons.mp hp with hp | hp <;> rcases List.mem_cons.mp hq with hq | hq
    · exact hp.trans hq.symm
    · refine absurd (List.mem_map_of_mem Prod.fst hq) ?_
      rw [← hfst, hp]
      exact hhead'
    · refine absurd (List.mem_map_of_mem Prod.fst hp) ?_
      rw [hfst, hq]
      exact hhead'
    · exact ih htl hp hq

/-- The availability scan conditions of `select_weighted_config`, stated
propositionally: every recorded failure count is below the threshold,
the name is not excluded, and any manual-disable entry is not today. -/
def qualifiedName (today : String) (sc : ServiceLBConfig) (n : String) : Prop :=
  (∀ c, alookup sc.current_failures n = some c → c < sc.failure_threshold)
  ∧ n ∉ sc.excluded_configs
  ∧ ∀ d, alookup sc.manual_disabled_until n = some d → d ≠ today

theorem availableName_iff (today : String) (sc : ServiceLBConfig) (n : String) :
    availableName today sc n = true ↔ qualifiedName today sc n := by
  rw [availableName, qualifiedName, contains_eq_decide_mem]
  cases hcf : alookup sc.current_failures n <;>
    cases hmd : alookup sc.manual_disabled_until n <;>
      by_cases hmem : n ∈ sc.excluded_configs <;>
        simp [hcf, hmd, hmem]

/-- Strictly earlier in the `(weight DESC, name ASC)` scan order. -/
def wBefore (a b : String × ℚ) : Prop :=
  b.2 < a.2 ∨ (a.2 = b.2 ∧ strLtB a.1 b.1 = true)

theorem wLe_trans (a b c : String × ℚ) (h₁ : wLe a b = true) (h₂ : wLe b c = true) :
    wLe a c = true := by
  simp only [wLe, Bool.or_eq_true, Bool.and_eq_true, decide_eq_true_eq] at h₁ h₂ ⊢
  rcases h₁ with h₁ | ⟨h₁e, h₁s⟩
  · rcases h₂ with h₂ | ⟨h₂e, h₂s⟩
    · exact Or.inl (lt_trans h₂ h₁)
    · exact Or.inl (h₂e ▸ h₁)
  · rcases h₂ with h₂ | ⟨h₂e, h₂s⟩
    · exact Or.inl (h₁e ▸ h₂)
    · exact Or.inr ⟨h₁e.trans h₂e, strLeB_trans h₁s h₂s⟩

theorem wLe_total (a b : String × ℚ) : wLe a b = true ∨ wLe b a = true := by
  simp only [wLe, Bool.or_eq_true, Bool.and_eq_true, decide_eq_true_eq]
  rcases lt_trichotomy a.2 b.2 with h | h | h
  · exact Or.inr (Or.inl h)
  · rcases strLeB_total a.1 b.1 with h' | h'
    · exact Or.inl (Or.inr ⟨h, h'⟩)
    · exact Or.inr (Or.inr ⟨h.symm, h'⟩)
  · exact Or.inl (Or.inl h)

theorem wBefore_of_wLe_ne {a b : String × ℚ} (h : wLe a b = true) (hne : a.1 ≠ b.1) :
    wBefore a b := by
  simp only [wLe, Bool.or_eq_true, Bool.and_eq_true, decide_eq_true_eq] at h
  rcases h with h | ⟨he, hs⟩
  · exact Or.inl h
  · exact Or.inr ⟨he, strLtB_of_strLeB_ne hs hne⟩

/-- C2: in weight-based mode, with a qualifying upstream available,
`select_weighted_config` returns the first qualifying name in
`(weight DESC, name ASC)` order: the result is in the pool, qualifies,
and strictly precedes every other qualifying pool entry in that order.
In particular with pool `{A: 1.0, B: 1.0}` and both healthy it returns
`A`, and with `{A: 0.5, B: 1.0}` it returns `B` (see the witness). -/
theorem C2_weighted_select_first_qualified
    (today activeConfig : String) (configs : List (String × ℚ)) (sc : ServiceLBConfig)
    (hnd : (configs.map Prod.fst).Nodup)
    (q : String × ℚ) (hq : q ∈ configs) (hqual : qualifiedName today sc q.1) :
    ∃ w, (selectWeightedConfig today activeConfig configs sc, w) ∈ configs
      ∧ qualifiedName today sc (selectWeightedConfig today activeConfig configs sc)
      ∧ ∀ p ∈ configs, qualifiedName today sc p.1 →
          p = (selectWeightedConfig today activeConfig configs sc, w) ∨
          wBefore (selectWeightedConfig today activeConfig configs sc, w) p := by
  have hperm := sortBy_perm wLe configs
  have hpair := sortBy_pairwise wLe_trans wLe_total configs
  have hqs : q ∈ sortBy wLe configs := hperm.mem_iff.mpr hq
  have hsome : ((sortBy wLe configs).find? fun p => availableName today sc p.1).isSome := by
    rw [List.find?_isSome]
    exact ⟨q, hqs, (availableName_iff today sc q.1).mpr hqual⟩
  rcases Option.isSome_iff_exists.mp hsome with ⟨r, hfind⟩
  have hne : configs.isEmpty = false := by
    cases configs with
    | nil => simp at hq
    | cons a tl => rfl
  have hsel : selectWeightedConfig today activeConfig configs sc = r.1 := by
    rw [selectWeightedConfig]
    simp only [hne, Bool.false_eq_true, if_false, hfind]
  rcases find?_min_of_pairwise hpair hfind with ⟨hqr, hmin⟩
  have hrmem : r ∈ configs := hperm.mem_iff.mp (List.mem_of_find?_eq_some hfind)
  rw [hsel]
  refine ⟨r.2, hrmem, (availableName_iff today sc r.1).mp hqr, ?_⟩
  intro p hp hpq
  have hps : p ∈ sortBy wLe configs := hperm.mem_iff.mpr hp
  rcases hmin p hps ((availableName_iff today sc p.1).mpr hpq) with hpr | hle
  · exact Or.inl hpr
  · by_cases hfst : r.1 = p.1
    · refine Or.inl ?_
      rw [Prod.mk.eta]
      exact eq_of_fst_eq_of_nodup hnd hp hrmem hfst.symm
    · exact Or.inr (wBefore_of_wLe_ne hle hfst)

/-- C2 witness: the weight tie-break examples.  With `{A: 1.0, B: 1.0}`
and the default (healthy) state, `select` returns `A`; with
`{A: 0.5, B: 1.0}` it returns `B`; and the general theorem instantiates
at the first pool. -/
theorem C2_weighted_select_first_qualified_witness :
    selectWeightedConfig "2026-02-03" "A" [("A", 1), ("B", 1)] ServiceLBConfig.default = "A"
    ∧ selectWeightedConfig "2026-02-03" "A" [("A", mkRat 1 2), ("B", 1)]
        ServiceLBConfig.default = "B"
    ∧ (∃ w, (selectWeightedConfig "2026-02-03" "A" [("A", 1), ("B", 1)]
              ServiceLBConfig.default, w) ∈ [(("A" : String), (1 : ℚ)), ("B", 1)]
        ∧ qualifiedName "2026-02-03" ServiceLBConfig.default
            (selectWeightedConfig "2026-02-03" "A" [("A", 1), ("B", 1)]
              ServiceLBConfig.default)
        ∧ ∀ p ∈ [(("A" : String), (1 : ℚ)), ("B", 1)],
            qualifiedName "2026-02-03" ServiceLBConfig.default p.1 →
            p = (selectWeightedConfig "2026-02-03" "A" [("A", 1), ("B", 1)]
                  ServiceLBConfig.default, w) ∨
            wBefore (selectWeightedConfig "2026-02-03" "A" [("A", 1), ("B", 1)]
                  ServiceLBConfig.default, w) p) :=
  ⟨by decide, by decide,
    C2_weighted_select_first_qualified "2026-02-03" "A" [("A", 1), ("B", 1)]
      ServiceLBConfig.default (by decide) ("A", 1) (by decide)
      (by
        refine ⟨?_, by decide, ?_⟩
        · intro c hc
          simp [ServiceLBConfig.default, alookup] at hc
        · intro d hd
          simp [ServiceLBConfig.default, alookup] at hd)⟩

/-- A per-service state in which both `A` and `B` are excluded (three
recorded failures each), used to exercise the all-disqualified fallback
of `select_weighted_config`. -/
def scAllExcluded : ServiceLBConfig :=
  { ServiceLBConfig.default with
    excluded_configs := ["A", "B"]
    excluded_timestamps := [("A", 1000), ("B", 1000)]
    current_failures := [("A", 3), ("B", 3)] }

/-- C3 counterexample: pool `{A: 0.5, B: 1.0}`, both entries excluded,
`active_name = "C"` not in the pool.  The claim says the fallback
returns the lexicographically-first pool name `A`; the code returns the
first entry of the weight-sorted order, which is `B`. -/
theorem C3_counterexample_not_lex_first :
    selectWeightedConfig "2026-02-03" "C" [("A", mkRat 1 2), ("B", 1)] scAllExcluded ≠ "A"
    ∧ selectWeightedConfig "2026-02-03" "C" [("A", mkRat 1 2), ("B", 1)] scAllExcluded = "B" :=
  ⟨by decide, by decide⟩

/-- C3 (amended): in weight-based mode, when every pool entry is
disqualified, `select_weighted_config` returns `active_name` if it is a
key of the pool; otherwise it returns the first pool entry in
`(weight DESC, name ASC)` order (not the lexicographically-first name). -/
theorem C3_all_disqualified_fallback
    (today activeConfig : String) (configs : List (String × ℚ)) (sc : ServiceLBConfig)
    (hnd : (configs.map Prod.fst).Nodup) (hne : configs ≠ [])
    (hall : ∀ p ∈ configs, ¬ qualifiedName today sc p.1) :
    ((∃ p ∈ configs, p.1 = activeConfig) →
      selectWeightedConfig today activeConfig configs sc = activeConfig)
    ∧ ((∀ p ∈ configs, p.1 ≠ activeConfig) →
      ∃ w, (selectWeightedConfig today activeConfig configs sc, w) ∈ configs
        ∧ ∀ p ∈ configs,
            p = (selectWeightedConfig today activeConfig configs sc, w) ∨
            wBefore (selectWeightedConfig today activeConfig configs sc, w) p) := by
  have hperm := sortBy_perm wLe configs
  have hpair := sortBy_pairwise wLe_trans wLe_total configs
  have hnone : (sortBy wLe configs).find? (fun p => availableName today sc p.1) = none := by
    rw [List.find?_eq_none]
    intro p hp hav
    exact hall p (hperm.mem_iff.mp hp) ((availableName_iff today sc p.1).mp hav)
  have hneB : configs.isEmpty = false := by
    cases configs with
    | nil => exact absurd rfl hne
    | cons a tl => rfl
  constructor
  · intro ⟨p, hp, hpa⟩
    have hany : configs.any (fun p => p.1 == activeConfig) = true := by
      rw [List.any_eq_true]
      exact ⟨p, hp, by simp [hpa]⟩
    rw [selectWeightedConfig]
    simp only [hneB, Bool.false_eq_true, if_false, hnone, hany, if_true]
  · intro hnact
    have hany : configs.any (fun p => p.1 == activeConfig) = false := by
      rw [Bool.eq_false_iff]
      intro hany
      rcases List.any_eq_true.mp hany with ⟨p, hp, hpa⟩
      exact hnact p hp (by simpa using hpa)
    have hsne : sortBy wLe configs ≠ [] := by
      intro hnil
      rw [hnil] at hperm
      exact hne hperm.nil_eq.symm
    rcases List.exists_cons_of_ne_nil hsne with ⟨r, rest, hcons⟩
    have hsel : selectWeightedConfig today activeConfig configs sc = r.1 := by
      rw [selectWeightedConfig]
      simp only [hneB, Bool.false_eq_true, if_false, hnone, hany]
      rw [hcons]
      rfl
    have hrmem : r ∈ configs := hperm.mem_iff.mp (by rw [hcons]; exact List.mem_cons_self r rest)
    rw [hsel]
    refine ⟨r.2, hrmem, ?_⟩
    intro p hp
    have hps : p ∈ sortBy wLe configs := hperm.mem_iff.mpr hp
    rw [hcons] at hps
    rcases List.mem_cons.mp hps with hpr | hpr
    · refine Or.inl ?_
      rw [Prod.mk.eta]
      exact hpr
    · have hle : wLe r p = true := by
        rw [hcons] at hpair
        exact (List.pairwise_cons.mp hpair).1 p hpr
      by_cases hfst : r.1 = p.1
      · refine Or.inl ?_
        rw [Prod.mk.eta]
        exact eq_of_fst_eq_of_nodup hnd hp hrmem hfst.symm
      · exact Or.inr (wBefore_of_wLe_ne hle hfst)

/-- C3 witness: the amended fallback instantiated at the counterexample
pool with active name `C` not in the pool — the result is `B`, the first
entry in weight order. -/
theorem C3_all_disqualified_fallback_witness :
    ((∃ p ∈ [(("A" : String), mkRat 1 2), ("B", 1)], p.1 = "C") →
      selectWeightedConfig "2026-02-03" "C" [("A", mkRat 1 2), ("B", 1)] scAllExcluded = "C")
    ∧ ((∀ p ∈ [(("A" : String), mkRat 1 2), ("B", 1)], p.1 ≠ "C") →
      ∃ w, (selectWeightedConfig "2026-02-03" "C" [("A", mkRat 1 2), ("B", 1)] scAllExcluded, w)
            ∈ [(("A" : String), mkRat 1 2), ("B", 1)]
        ∧ ∀ p ∈ [(("A" : String), mkRat 1 2), ("B", 1)],
            p = (selectWeightedConfig "2026-02-03" "C" [("A", mkRat 1 2), ("B", 1)]
                  scAllExcluded, w) ∨
            wBefore (selectWeightedConfig "2026-02-03" "C" [("A", mkRat 1 2), ("B", 1)]
                  scAllExcluded, w) p) :=
  C3_all_disqualified_fallback "2026-02-03" "C" [("A", mkRat 1 2), ("B", 1)] scAllExcluded
    (by decide) (by decide)
    (by
      intro p hp hqual
      rcases hqual with ⟨hcf, hexc, hmd⟩
      rcases List.mem_cons.mp hp with hpa | hp2
      · exact absurd (hcf 3 (by rw [hpa]; decide)) (by decide)
      · rcases List.mem_cons.mp hp2 with hpb | hnil
        · exact absurd (hcf 3 (by rw [hpb]; decide)) (by decide)
        · simp at hnil)

/-- The predicate deciding whether `apply_auto_reset` resets name `n`:
the sweep is enabled, `n` is excluded, and its recorded exclusion
timestamp is at least `auto_reset_minutes * 60` seconds old. -/
def autoResetDue (now : ℚ) (sc : ServiceLBConfig) (n : String) : Bool :=
  decide (sc.auto_reset_minutes ≠ 0) && sc.excluded_configs.contains n &&
    (match alookup sc.excluded_timestamps n with
     | some ts => decide ((sc.auto_reset_minutes : ℚ) * 60 ≤ now - ts)
     | none => false)

theorem foldl_autoResetStep_excluded (L : List String) :
    ∀ sc : ServiceLBConfig,
      (L.foldl autoResetStep sc).excluded_configs
        = sc.excluded_configs.filter fun x => decide (x ∉ L) := by
  induction L with
  | nil =>
    intro sc
    simp
  | cons m L ih =>
    intro sc
    rw [List.foldl_cons, ih (autoResetStep sc m)]
    show (sc.excluded_configs.filter fun x => decide (x ≠ m)).filter (fun x => decide (x ∉ L))
      = sc.excluded_configs.filter fun x => decide (x ∉ m :: L)
    rw [List.filter_filter]
    refine List.filter_congr ?_
    intro x hx
    by_cases hxm : x = m <;> by_cases hxL : x ∈ L <;> simp [hxm, hxL]

theorem foldl_autoResetStep_ts (L : List String) :
    ∀ (sc : ServiceLBConfig) (n : String),
      alookup (L.foldl autoResetStep sc).excluded_timestamps n
        = if n ∈ L then none else alookup sc.excluded_timestamps n := by
  induction L with
  | nil =>
    intro sc n
    simp
  | cons m L ih =>
    intro sc n
    rw [List.foldl_cons, ih (autoResetStep sc m) n]
    by_cases hnL : n ∈ L
    · simp [hnL]
    · by_cases hnm : n = m
      · subst hnm
        simp [hnL, autoResetStep, alookup_aerase_self]
      · simp only [hnL, if_false, List.mem_cons, hnm, false_or, autoResetStep]
        rw [alookup_aerase_ne sc.excluded_timestamps m n hnm]

theorem foldl_autoResetStep_failures (L : List String) :
    ∀ (sc : ServiceLBConfig) (n : String),
      alookup (L.foldl autoResetStep sc).current_failures n
        = if n ∈ L then some 0 else alookup sc.current_failures n := by
  induction L with
  | nil =>
    intro sc n
    simp
  | cons m L ih =>
    intro sc n
    rw [List.foldl_cons, ih (autoResetStep sc m) n]
    by_cases hnL : n ∈ L
    · simp [hnL]
    · by_cases hnm : n = m
      · subst hnm
        simp [hnL, autoResetStep, alookup_ains_self]
      · simp only [hnL, if_false, List.mem_cons, hnm, false_or, autoResetStep]
        rw [alookup_ains_ne sc.current_failures m n 0 hnm]

theorem foldl_autoResetStep_fields (L : List String) :
    ∀ sc : ServiceLBConfig,
      (L.foldl autoResetStep sc).failure_threshold = sc.failure_threshold
      ∧ (L.foldl autoResetStep sc).auto_reset_minutes = sc.auto_reset_minutes
      ∧ (L.foldl autoResetStep sc).manual_disabled_until = sc.manual_disabled_until := by
  induction L with
  | nil =>
    intro sc
    exact ⟨rfl, rfl, rfl⟩
  | cons m L ih =>
    intro sc
    rw [List.foldl_cons]
    exact ih (autoResetStep sc m)

theorem applyAutoReset_fields (now : ℚ) (sc : ServiceLBConfig) :
    (applyAutoReset now sc).failure_threshold = sc.failure_threshold
    ∧ (applyAutoReset now sc).auto_reset_minutes = sc.auto_reset_minutes
    ∧ (applyAutoReset now sc).manual_disabled_until = sc.manual_disabled_until := by
  by_cases hz : sc.auto_reset_minutes = 0
  · simp [applyAutoReset, hz]
  · simp only [applyAutoReset, hz, if_false]
    exact foldl_autoResetStep_fields _ sc

theorem applyAutoReset_spec (now : ℚ) (sc : ServiceLBConfig) (n : String) :
    ((applyAutoReset now sc).excluded_configs.contains n
      = (sc.excluded_configs.contains n && !(autoResetDue now sc n)))
    ∧ (alookup (applyAutoReset now sc).excluded_timestamps n
      = if autoResetDue now sc n = true then none else alookup sc.excluded_timestamps n)
    ∧ (alookup (applyAutoReset now sc).current_failures n
      = if autoResetDue now sc n = true then some 0 else alookup sc.current_failures n) := by
  by_cases hz : sc.auto_reset_minutes = 0
  · simp [applyAutoReset, hz, autoResetDue]
  · simp only [applyAutoReset, hz, if_false]
    rw [foldl_autoResetStep_excluded, foldl_autoResetStep_ts, foldl_autoResetStep_failures]
    cases htsn : alookup sc.excluded_timestamps n with
    | none =>
      by_cases hmem : n ∈ sc.excluded_configs <;>
        simp [autoResetDue, hz, htsn, List.mem_filter, hmem, contains_eq_decide_mem]
    | some ts =>
      by_cases hle : ((sc.auto_reset_minutes : ℚ) * 60 ≤ now - ts) <;>
        by_cases hmem : n ∈ sc.excluded_configs <;>
          simp [autoResetDue, hz, htsn, List.mem_filter, hmem, hle, contains_eq_decide_mem]

/-- C4: the auto-reset sweep.  For every state and name, the sweep
removes `n` from `excluded_configs` and `excluded_timestamps` and zeroes
its failure count exactly when `n` is excluded with a recorded exclusion
time at least `auto_reset_minutes * 60` seconds old (`autoResetDue`);
with `auto_reset_minutes = 0` the sweep is the identity; and both
`select_config` and `record_result` run the sweep (followed by the
manual-disable cleanup) on the per-service record before the mode
dispatch resp. the outcome update. -/
theorem C4_auto_reset_sweep (now : ℚ) (today : String) (lbc : LoadBalancerConfig)
    (service activeConfig : String) (configs : List (String × ℚ))
    (sc : ServiceLBConfig) (n configName : String) (success : Bool) :
    ((applyAutoReset now sc).excluded_configs.contains n
      = (sc.excluded_configs.contains n && !(autoResetDue now sc n)))
    ∧ (alookup (applyAutoReset now sc).excluded_timestamps n
      = if autoResetDue now sc n = true then none else alookup sc.excluded_timestamps n)
    ∧ (alookup (applyAutoReset now sc).current_failures n
      = if autoResetDue now sc n = true then some 0 else alookup sc.current_failures n)
    ∧ applyAutoReset now { sc with auto_reset_minutes := 0 }
      = { sc with auto_reset_minutes := 0 }
    ∧ alookup (selectConfigLB now today lbc service activeConfig configs).2.services service
      = some (cleanupManualDisabled today (applyAutoReset now (svcState lbc service)))
    ∧ alookup (recordResult now today lbc service configName success).services service
      = some (recordUpdate now configName success
          (cleanupManualDisabled today (applyAutoReset now (svcState lbc service)))) := by
  rcases applyAutoReset_spec now sc n with ⟨h₁, h₂, h₃⟩
  refine ⟨h₁, h₂, h₃, by simp [applyAutoReset], ?_, ?_⟩
  · rw [selectConfigLB]
    exact alookup_ains_self _ _ _
  · rw [recordResult]
    exact alookup_ains_self _ _ _

/-!
## Reachable balancer states (for the per-service invariants)

`select_config` stores back the swept per-service record, and
`record_result` stores the swept record with the outcome update applied
(see the definitions of `selectConfigLB` and `recordResult`).  The per-service
state transition induced by one operation is therefore `applyOp`, and a
state is reachable when it is the fold of a sequence of operations over
`ServiceLBConfig::default`. -/
inductive LBOp where
  | select (now : ℚ) (today : String)
  | record (now : ℚ) (today : String) (name : String) (success : Bool)

/-- The per-service state transition of one balancer operation. -/
def applyOp : LBOp → ServiceLBConfig → ServiceLBConfig
  | .select now today, sc => cleanupManualDisabled today (applyAutoReset now sc)
  | .record now today name success, sc =>
      recordUpdate now name success (cleanupManualDisabled today (applyAutoReset now sc))

/-- The per-service state after a sequence of balancer operations,
starting from the default record. -/
def reachState (ops : List LBOp) : ServiceLBConfig :=
  ops.foldl (fun sc op => applyOp op sc) ServiceLBConfig.default

/-- The balancer invariants of the specification data model, plus the
facts that make them inductive (`failure_threshold` stays at its default
of 3, hence positive). -/
def lbInv (sc : ServiceLBConfig) : Prop :=
  (∀ n, n ∈ sc.excluded_configs ↔ (alookup sc.excluded_timestamps n).isSome = true)
  ∧ (∀ n c, alookup sc.current_failures n = some c → sc.failure_threshold ≤ c →
      n ∈ sc.excluded_configs)
  ∧ 1 ≤ sc.failure_threshold

theorem lbInv_applyAutoReset (now : ℚ) {sc : ServiceLBConfig} (h : lbInv sc) :
    lbInv (applyAutoReset now sc) := by
  rcases h with ⟨hkey, hthr, h1⟩
  rcases applyAutoReset_fields now sc with ⟨hfthr, _, _⟩
  refine ⟨?_, ?_, hfthr ▸ h1⟩
  · intro n
    rcases applyAutoReset_spec now sc n with ⟨h₁, h₂, _⟩
    have hc : decide (n ∈ (applyAutoReset now sc).excluded_configs)
        = (decide (n ∈ sc.excluded_configs) && !autoResetDue now sc n) := by
      rw [← contains_eq_decide_mem, ← contains_eq_decide_mem]
      exact h₁
    by_cases hdue : autoResetDue now sc n = true
    · have hnm : decide (n ∈ (applyAutoReset now sc).excluded_configs) = false := by
        rw [hc, hdue]
        simp
      rw [h₂, if_pos hdue]
      simp [of_decide_eq_false hnm]
    · have hdf : autoResetDue now sc n = false := by simpa using hdue
      have hveq : decide (n ∈ (applyAutoReset now sc).excluded_configs)
          = decide (n ∈ sc.excluded_configs) := by
        rw [hc, hdf]
        simp
      rw [h₂, if_neg hdue]
      exact (decide_eq_decide.mp hveq).trans (hkey n)
  · intro n c hcl hge
    rcases applyAutoReset_spec now sc n with ⟨h₁, h₂, h₃⟩
    rw [hfthr] at hge
    by_cases hdue : autoResetDue now sc n = true
    · rw [h₃, if_pos hdue] at hcl
      injection hcl with hcl
      omega
    · rw [h₃, if_neg hdue] at hcl
      have hmem := hthr n c hcl hge
      have hdf : autoResetDue now sc n = false := by simpa using hdue
      have hc : decide (n ∈ (applyAutoReset now sc).excluded_configs)
          = (decide (n ∈ sc.excluded_configs) && !autoResetDue now sc n) := by
        rw [← contains_eq_decide_mem, ← contains_eq_decide_mem]
        exact h₁
      refine of_decide_eq_true ?_
      rw [hc, hdf, decide_eq_true hmem]
      simp

theorem lbInv_cleanupManualDisabled (today : String) {sc : ServiceLBConfig}
    (h : lbInv sc) : lbInv (cleanupManualDisabled today sc) := h

theorem mem_filter_ne (l : List String) (a b : String) :
    (a ∈ l.filter fun x => decide (x ≠ b)) ↔ (a ∈ l ∧ a ≠ b) := by
  rw [List.mem_filter]
  simp

theorem lbInv_recordUpdate (now : ℚ) (configName : String) (success : Bool)
    {sc : ServiceLBConfig} (h : lbInv sc) :
    lbInv (recordUpdate now configName success sc) := by
  rcases h with ⟨hkey, hthr, h1⟩
  cases success with
  | true =>
    refine ⟨?_, ?_, h1⟩
    · intro n
      show (n ∈ sc.excluded_configs.filter fun x => decide (x ≠ configName)) ↔ _
      rw [mem_filter_ne]
      by_cases hn : n = configName
      · subst hn
        simp [recordUpdate, alookup_aerase_self]
      · constructor
        · intro ⟨hmem, _⟩
          show (alookup (aerase sc.excluded_timestamps configName) n).isSome = true
          rw [alookup_aerase_ne _ _ _ hn]
          exact (hkey n).mp hmem
        · intro hsome
          refine ⟨?_, hn⟩
          apply (hkey n).mpr
          have hsome' : (alookup (aerase sc.excluded_timestamps configName) n).isSome = true :=
            hsome
          rwa [alookup_aerase_ne _ _ _ hn] at hsome'
    · intro n c hcl hge
      show n ∈ sc.excluded_configs.filter fun x => decide (x ≠ configName)
      rw [mem_filter_ne]
      by_cases hn : n = configName
      · subst hn
        have : alookup (ains sc.current_failures n 0) n = some 0 := alookup_ains_self _ _ _
        have hcl' : alookup (ains sc.current_failures n 0) n = some c := hcl
        rw [this] at hcl'
        injection hcl' with hcl'
        have hge' : sc.failure_threshold ≤ c := hge
        exfalso
        omega
      · have hcl' : alookup sc.current_failures n = some c := by
          have : alookup (ains sc.current_failures configName 0) n
              = alookup sc.current_failures n := alookup_ains_ne _ _ _ _ hn
          rw [← this]
          exact hcl
        exact ⟨hthr n c hcl' hge, hn⟩
  | false =>
    rw [recordUpdate]
    simp only [Bool.false_eq_true, if_false]
    by_cases hthresh : sc.failure_threshold ≤ (alookup sc.current_failures configName).getD 0 + 1
    · by_cases hcont : sc.excluded_configs.contains configName = true
      · simp only [hthresh, if_true, hcont]
        refine ⟨hkey, ?_, h1⟩
        intro n c hcl hge
        by_cases hn : n = configName
        · subst hn
          rw [contains_eq_decide_mem, decide_eq_true_eq] at hcont
          exact hcont
        · have hcl' : alookup sc.current_failures n = some c := by
            rw [← alookup_ains_ne sc.current_failures configName n
              ((alookup sc.current_failures configName).getD 0 + 1) hn]
            exact hcl
          exact hthr n c hcl' hge
      · simp only [hthresh, if_true, hcont, Bool.false_eq_true, if_false]
        refine ⟨?_, ?_, h1⟩
        · intro n
          by_cases hn : n = configName
          · subst hn
            constructor
            · intro _
              show (alookup (ains sc.excluded_timestamps n now) n).isSome = true
              rw [alookup_ains_self]
              rfl
            · intro _
              exact List.mem_append_right _ (List.mem_singleton.mpr rfl)
          · constructor
            · intro hmem
              rcases List.mem_append.mp hmem with hmem | hmem
              · show (alookup (ains sc.excluded_timestamps configName now) n).isSome = true
                rw [alookup_ains_ne _ _ _ _ hn]
                exact (hkey n).mp hmem
              · exact absurd (List.mem_singleton.mp hmem) hn
            · intro hsome
              refine List.mem_append_left _ ?_
              apply (hkey n).mpr
              have hsome' :
                  (alookup (ains sc.excluded_timestamps configName now) n).isSome = true :=
                hsome
              rwa [alookup_ains_ne _ _ _ _ hn] at hsome'
        · intro n c hcl hge
          by_cases hn : n = configName
          · subst hn
            exact List.mem_append_right _ (List.mem_singleton.mpr rfl)
          · have hcl' : alookup sc.current_failures n = some c := by
              rw [← alookup_ains_ne sc.current_failures configName n
                ((alookup sc.current_failures configName).getD 0 + 1) hn]
              exact hcl
            exact List.mem_append_left _ (hthr n c hcl' hge)
    · simp only [hthresh, if_false]
      refine ⟨hkey, ?_, h1⟩
      intro n c hcl hge
      by_cases hn : n = configName
      · subst hn
        have : alookup (ains sc.current_failures n ((alookup sc.current_failures n).getD 0 + 1)) n
            = some ((alookup sc.current_failures n).getD 0 + 1) := alookup_ains_self _ _ _
        have hcl' := hcl
        rw [this] at hcl'
        injection hcl' with hcl'
        subst hcl'
        exact absurd hge hthresh
      · have hcl' : alookup sc.current_failures n = some c := by
          rw [← alookup_ains_ne sc.current_failures configName n
            ((alookup sc.current_failures configName).getD 0 + 1) hn]
          exact hcl
        exact hthr n c hcl' hge

theorem lbInv_applyOp (op : LBOp) {sc : ServiceLBConfig} (h : lbInv sc) :
    lbInv (applyOp op sc) := by
  cases op with
  | select now today => exact lbInv_cleanupManualDisabled today (lbInv_applyAutoReset now h)
  | record now today name success =>
    exact lbInv_recordUpdate now name success
      (lbInv_cleanupManualDisabled today (lbInv_applyAutoReset now h))

theorem lbInv_default : lbInv ServiceLBConfig.default := by
  refine ⟨?_, ?_, by decide⟩
  · intro n
    simp [ServiceLBConfig.default, alookup]
  · intro n c hcl
    simp [ServiceLBConfig.default, alookup] at hcl

theorem lbInv_foldl (ops : List LBOp) :
    ∀ sc : ServiceLBConfig, lbInv sc →
      lbInv (ops.foldl (fun sc op => applyOp op sc) sc) := by
  induction ops with
  | nil => exact fun sc h => h
  | cons op ops ih =>
    intro sc h
    rw [List.foldl_cons]
    exact ih _ (lbInv_applyOp op h)

theorem lbInv_reachState (ops : List LBOp) : lbInv (reachState ops) :=
  lbInv_foldl ops ServiceLBConfig.default lbInv_default

theorem recordUpdate_success_post (now : ℚ) (n : String) (sc : ServiceLBConfig) :
    alookup (recordUpdate now n true sc).current_failures n = some 0
    ∧ n ∉ (recordUpdate now n true sc).excluded_configs
    ∧ alookup (recordUpdate now n true sc).excluded_timestamps n = none := by
  refine ⟨alookup_ains_self _ _ _, ?_, alookup_aerase_self _ _⟩
  intro hmem
  rcases (mem_filter_ne _ _ _).mp hmem with ⟨_, hne⟩
  exact hne rfl

/-- C5: for every per-service state reachable from the default record by
select and record operations, `excluded_configs` and
`excluded_timestamps` carry the same name set; every name whose recorded
failure count has reached the threshold is excluded; and immediately
after a successful record for `n`, `n`'s failure count is zero and `n`
is absent from both exclusion structures. -/
theorem C5_balancer_invariants (ops : List LBOp) :
    (∀ n, n ∈ (reachState ops).excluded_configs ↔
        (alookup (reachState ops).excluded_timestamps n).isSome = true)
    ∧ (∀ n c, alookup (reachState ops).current_failures n = some c →
        (reachState ops).failure_threshold ≤ c → n ∈ (reachState ops).excluded_configs)
    ∧ (∀ now today n,
        alookup (applyOp (.record now today n true) (reachState ops)).current_failures n
          = some 0
        ∧ n ∉ (applyOp (.record now today n true) (reachState ops)).excluded_configs
        ∧ alookup (applyOp (.record now today n true) (reachState ops)).excluded_timestamps n
          = none) := by
  rcases lbInv_reachState ops with ⟨hkey, hthr, _⟩
  exact ⟨hkey, hthr, fun now today n => recordUpdate_success_post now n _⟩

/-- C5 witness: after three failure records for `A` (at time 0), `A` is
in both exclusion structures, the threshold invariant holds, and a
subsequent successful record for `A` clears all three. -/
theorem C5_balancer_invariants_witness :
    (∀ n, n ∈ (reachState [.record 0 "2026-02-03" "A" false,
          .record 0 "2026-02-03" "A" false, .record 0 "2026-02-03" "A" false]).excluded_configs
        ↔ (alookup (reachState [.record 0 "2026-02-03" "A" false,
          .record 0 "2026-02-03" "A" false,
          .record 0 "2026-02-03" "A" false]).excluded_timestamps n).isSome = true)
    ∧ (∀ n c, alookup (reachState [.record 0 "2026-02-03" "A" false,
          .record 0 "2026-02-03" "A" false,
          .record 0 "2026-02-03" "A" false]).current_failures n = some c →
        (reachState [.record 0 "2026-02-03" "A" false, .record 0 "2026-02-03" "A" false,
          .record 0 "2026-02-03" "A" false]).failure_threshold ≤ c →
        n ∈ (reachState [.record 0 "2026-02-03" "A" false, .record 0 "2026-02-03" "A" false,
          .record 0 "2026-02-03" "A" false]).excluded_configs)
    ∧ (∀ now today n,
        alookup (applyOp (.record now today n true)
            (reachState [.record 0 "2026-02-03" "A" false, .record 0 "2026-02-03" "A" false,
              .record 0 "2026-02-03" "A" false])).current_failures n = some 0
        ∧ n ∉ (applyOp (.record now today n true)
            (reachState [.record 0 "2026-02-03" "A" false, .record 0 "2026-02-03" "A" false,
              .record 0 "2026-02-03" "A" false])).excluded_configs
        ∧ alookup (applyOp (.record now today n true)
            (reachState [.record 0 "2026-02-03" "A" false, .record 0 "2026-02-03" "A" false,
              .record 0 "2026-02-03" "A" false])).excluded_timestamps n = none) :=
  C5_balancer_invariants
    [.record 0 "2026-02-03" "A" false, .record 0 "2026-02-03" "A" false,
      .record 0 "2026-02-03" "A" false]

/-!
## Forwarder (`src/proxy/proxy_service.rs`, `src/main.rs`)
-/

/-- The error type surfaced by the embedded forwarder paths
(`ProxyError::ConfigurationError`). -/
inductive ProxyError where
  | configurationError (msg : String)
deriving DecidableEq, Repr

/-- `ServiceConfig` (`src/config/service_config.rs`). -/
structure ServiceConfig where
  name : String
  base_url : String
  api_key : Option String
  auth_token : Option String
  active : Bool
  weight : ℚ
deriving DecidableEq, Repr

/-- The header names stripped from the inbound request by
`build_headers`. -/
def hdrExcluded : List String := ["host", "content-length", "x-api-key", "authorization"]

/-- ASCII lowercasing of one character (`str::to_lowercase` on the
ASCII header names handled here). -/
def lowerChar (c : Char) : Char :=
  if decide ('A' ≤ c) && decide (c ≤ 'Z') then Char.ofNat (c.toNat + 32) else c

/-- ASCII lowercasing of a string. -/
def lowerStr (s : String) : String := String.mk (s.data.map lowerChar)

/-- The header-copy loop of `build_headers`: every inbound header whose
lowercased name is not in the excluded list is inserted (header names
are normalised to lowercase by `HeaderName::from_bytes`; values are
embedded as strings, the `HeaderValue::from_bytes` validity check being
identity on them). -/
def copyHeadersFold (originalHeaders : List (String × String))
    (headers : List (String × String)) : List (String × String) :=
  originalHeaders.foldl
    (fun acc kv =>
      let keyStr := lowerStr kv.1
      if hdrExcluded.contains keyStr then acc else ains acc keyStr kv.2)
    headers

/-- `ProxyService::build_headers`.  `hostOpt` is the host extracted from
the target URL by `url::Url::parse(..).host_str()`. -/
def buildHeaders (originalHeaders : List (String × String))
    (apiKey authToken : Option String) (hostOpt : Option String) :
    List (String × String) :=
  let headers : List (String × String) := []
  let headers := copyHeadersFold originalHeaders headers
  let headers :=
    match hostOpt with
    | some host => ains headers "host" host
    | none => headers
  let headers :=
    match apiKey with
    | some apiKey => ains headers "x-api-key" apiKey
    | none => headers
  let headers :=
    match authToken with
    | some authToken => ains headers "authorization" ("Bearer " ++ authToken)
    | none => headers
  ains headers "connection" "keep-alive"

theorem alookup_copyHeadersFold_excluded (originalHeaders : List (String × String))
    (k : String) (hk : hdrExcluded.contains k = true) :
    ∀ headers, alookup (copyHeadersFold originalHeaders headers) k = alookup headers k := by
  induction originalHeaders with
  | nil => intro headers; rfl
  | cons kv rest ih =>
    intro headers
    rw [copyHeadersFold, List.foldl_cons]
    by_cases hc : hdrExcluded.contains (lowerStr kv.1) = true
    · simp only [hc, if_true]
      exact ih headers
    · simp only [hc, Bool.false_eq_true, if_false]
      have hne : lowerStr kv.1 ≠ k := by
        intro heq
        rw [heq] at hc
        exact hc hk
      have := ih (ains headers (lowerStr kv.1) kv.2)
      rw [copyHeadersFold] at this
      rw [this, alookup_ains_ne headers (lowerStr kv.1) k kv.2 (Ne.symm hne)]

theorem mem_aerase {α : Type} {p : String × α} {l : List (String × α)} {k : String}
    (h : p ∈ aerase l k) : p ∈ l ∧ p.1 ≠ k := by
  induction l with
  | nil => simp [aerase] at h
  | cons q qs ih =>
    by_cases hq : q.1 = k
    · rw [aerase, if_pos hq] at h
      rcases ih h with ⟨hmem, hne⟩
      exact ⟨List.mem_cons_of_mem q hmem, hne⟩
    · rw [aerase, if_neg hq] at h
      rcases List.mem_cons.mp h with h | h
      · exact ⟨h ▸ List.mem_cons_self q qs, h ▸ hq⟩
      · rcases ih h with ⟨hmem, hne⟩
        exact ⟨List.mem_cons_of_mem q hmem, hne⟩

theorem keysNodup_ains {α : Type} (l : List (String × α)) (k : String) (v : α)
    (h : (l.map Prod.fst).Nodup) : ((ains l k v).map Prod.fst).Nodup := by
  rw [ains, List.map_append]
  rw [List.nodup_append]
  refine ⟨((aerase_sublist l k).map Prod.fst).nodup h, List.nodup_singleton k, ?_⟩
  intro a ha hb
  rcases List.mem_map.mp ha with ⟨p, hp, hpa⟩
  rcases mem_aerase hp with ⟨_, hne⟩
  rw [List.mem_singleton.mp hb] at hpa
  exact hne hpa

theorem keysNodup_copyHeadersFold (originalHeaders : List (String × String)) :
    ∀ headers, (headers.map Prod.fst).Nodup →
      ((copyHeadersFold originalHeaders headers).map Prod.fst).Nodup := by
  induction originalHeaders with
  | nil => exact fun headers h => h
  | cons kv rest ih =>
    intro headers h
    rw [copyHeadersFold, List.foldl_cons]
    by_cases hc : hdrExcluded.contains (lowerStr kv.1) = true
    · simp only [hc, if_true]
      exact ih headers h
    · simp only [hc, Bool.false_eq_true, if_false]
      exact ih _ (keysNodup_ains headers (lowerStr kv.1) kv.2 h)

/-- C7: header hygiene.  For every inbound header map and any
descriptor credentials, the outbound map built by `build_headers` keys
each header at most once; carries no client-supplied `x-api-key`,
`authorization`, `host`, or `content-length` (its `x-api-key` is exactly
the descriptor's `api_key`, its `authorization` exactly
`Bearer <auth_token>`, its `host` exactly the target-URL host); and its
`connection` is `keep-alive`. -/
theorem C7_header_hygiene (originalHeaders : List (String × String))
    (apiKey authToken hostOpt : Option String) :
    alookup (buildHeaders originalHeaders apiKey authToken hostOpt) "x-api-key" = apiKey
    ∧ alookup (buildHeaders originalHeaders apiKey authToken hostOpt) "authorization"
        = authToken.map (fun t => "Bearer " ++ t)
    ∧ alookup (buildHeaders originalHeaders apiKey authToken hostOpt) "content-length" = none
    ∧ alookup (buildHeaders originalHeaders apiKey authToken hostOpt) "host" = hostOpt
    ∧ alookup (buildHeaders originalHeaders apiKey authToken hostOpt) "connection"
        = some "keep-alive"
    ∧ ((buildHeaders originalHeaders apiKey authToken hostOpt).map Prod.fst).Nodup := by
  have hcopy : ∀ k, hdrExcluded.contains k = true →
      alookup (copyHeadersFold originalHeaders []) k = none := fun k hk =>
    alookup_copyHeadersFold_excluded originalHeaders k hk []
  cases hostOpt <;> cases apiKey <;> cases authToken <;>
    refine ⟨?_, ?_, ?_, ?_, ?_, ?_⟩ <;>
      simp only [buildHeaders, Option.map] <;>
      (try
        repeat
          first
          | rw [alookup_ains_self]
          | rw [alookup_ains_ne _ "connection" "x-api-key" _ (by decide)]
          | rw [alookup_ains_ne _ "connection" "authorization" _ (by decide)]
          | rw [alookup_ains_ne _ "connection" "content-length" _ (by decide)]
          | rw [alookup_ains_ne _ "connection" "host" _ (by decide)]
          | rw [alookup_ains_ne _ "authorization" "x-api-key" _ (by decide)]
          | rw [alookup_ains_ne _ "authorization" "content-length" _ (by decide)]
          | rw [alookup_ains_ne _ "authorization" "host" _ (by decide)]
          | rw [alookup_ains_ne _ "x-api-key" "authorization" _ (by decide)]
          | rw [alookup_ains_ne _ "x-api-key" "content-length" _ (by decide)]
          | rw [alookup_ains_ne _ "x-api-key" "host" _ (by decide)]
          | rw [alookup_ains_ne _ "host" "x-api-key" _ (by decide)]
          | rw [alookup_ains_ne _ "host" "authorization" _ (by decide)]
          | rw [alookup_ains_ne _ "host" "content-length" _ (by decide)]
          | exact hcopy "x-api-key" (by decide)
          | exact hcopy "authorization" (by decide)
          | exact hcopy "content-length" (by decide)
          | exact hcopy "host" (by decide)
          | rfl) <;>
      (try repeat apply keysNodup_ains) <;>
      (try exact keysNodup_copyHeadersFold originalHeaders [] (by simp))

/-- `ProxyService::select_config`: resolve the active name, build the
name-to-weight map, let the balancer select, and look the selected name
up in the config map.  Returns the chosen descriptor, the selected
name, and the updated balancer state. -/
def selectConfigPS (now : ℚ) (today : String) (lb : LoadBalancerConfig)
    (serviceName : String) (configs : List (String × ServiceConfig))
    (activeConfigName : Option String) :
    Except ProxyError ((ServiceConfig × String) × LoadBalancerConfig) :=
  match activeConfigName with
  | none => .error (.configurationError "No active configuration")
  | some activeName =>
    let configWeights := configs.map fun p => (p.1, p.2.weight)
    let sel := selectConfigLB now today lb serviceName activeName configWeights
    match alookup configs sel.1 with
    | some finalConfig => .ok ((finalConfig, sel.1), sel.2)
    | none => .error (.configurationError "Configuration not found")

/-- The balancer-recording slice of `proxy_handler` (`src/main.rs`,
lines 364–376): classify success as `200 <= status < 400` and call
`record_result` with `config_manager.get_active_config_name()` — the
ACTIVE configuration name, not the name `select_config` returned. -/
def proxyHandlerBalancerUpdate (now : ℚ) (today : String) (lb : LoadBalancerConfig)
    (serviceName : String) (activeConfigName : Option String) (statusCode : Nat) :
    LoadBalancerConfig :=
  let success := decide (200 ≤ statusCode) && decide (statusCode < 400)
  match activeConfigName with
  | some configName => recordResult now today lb serviceName configName success
  | none => lb

/-- A weight-based balancer state with only the default claude record. -/
def lbWeightTest : LoadBalancerConfig :=
  { mode := .weightBased, services := [("claude", ServiceLBConfig.default)] }

/-- Upstream `A`: active, weight 0.5. -/
def cfgA : ServiceConfig :=
  { name := "A", base_url := "https://a.example", api_key := some "ka"
    auth_token := none, active := true, weight := mkRat 1 2 }

/-- Upstream `B`: weight 1.0. -/
def cfgB : ServiceConfig :=
  { name := "B", base_url := "https://b.example", api_key := none
    auth_token := some "tb", active := false, weight := 1 }

/-- C1: the forwarder's terminal stage records the result against the
ACTIVE configuration name, not the selected one.  In weight-based mode
with pool `{A: 0.5 (active), B: 1.0}`, `select_config` selects `B`, yet
after the upstream answers 500 the handler's balancer update leaves
`B`'s failure count absent and increments `A`'s to 1 — contradicting
the claim that the selected upstream's consecutive-failure count
increases by one. -/
theorem C1_handler_records_active_name_not_selected :
    selectConfigPS 0 "2026-02-03" lbWeightTest "claude" [("A", cfgA), ("B", cfgB)] (some "A")
      = .ok ((cfgB, "B"), lbWeightTest)
    ∧ ((alookup (proxyHandlerBalancerUpdate 0 "2026-02-03" lbWeightTest "claude"
          (some "A") 500).services "claude").map
        fun sc => alookup sc.current_failures "B") = some none
    ∧ ((alookup (proxyHandlerBalancerUpdate 0 "2026-02-03" lbWeightTest "claude"
          (some "A") 500).services "claude").map
        fun sc => alookup sc.current_failures "A") = some (some 1) :=
  ⟨by rfl, by decide, by decide⟩

/-!
## Usage extraction (`src/logging/usage_parser.rs`)

JSON documents are embedded as `Json` values; `serde_json::from_str` is
an external library and is embedded as an explicit `parse` parameter
(`String → Option Json`).  JSON numbers in scope are u64 token counts,
embedded as `Nat`.
-/
inductive Json where
  | null
  | bool (b : Bool)
  | num (n : Nat)
  | str (s : String)
  | arr (elements : List Json)
  | obj (fields : List (String × Json))

/-- `serde_json::Value::get` on an object. -/
def Json.get : Json → String → Option Json
  | .obj fields, key => alookup fields key
  | _, _ => none

/-- `serde_json::Value::as_u64`. -/
def Json.as_u64 : Json → Option Nat
  | .num n => some n
  | _ => none

/-- `serde_json::Value::as_str`. -/
def Json.as_str : Json → Option String
  | .str s => some s
  | _ => none

/-- `UsageMetrics` (`src/logging/request_logger.rs`). -/
structure UsageMetrics where
  prompt_tokens : Nat
  completion_tokens : Nat
  total_tokens : Nat
  model : String
deriving DecidableEq, Repr

/-- `UsageMetrics::default`. -/
def UsageMetrics.default : UsageMetrics :=
  { prompt_tokens := 0, completion_tokens := 0, total_tokens := 0, model := "" }

/-- `extract_claude_usage`: requires the `usage`, `input_tokens` and
`output_tokens` keys (each behind `?`); non-numeric values default to 0;
`total` is their sum; a missing or non-string `model` becomes
`"unknown"`. -/
def extractClaudeUsage (json : Json) : Option UsageMetrics := do
  let usage ← json.get "usage"
  let inputVal ← usage.get "input_tokens"
  let input_tokens := inputVal.as_u64.getD 0
  let outputVal ← usage.get "output_tokens"
  let output_tokens := outputVal.as_u64.getD 0
  let total_tokens := input_tokens + output_tokens
  let model := ((json.get "model").bind Json.as_str).getD "unknown"
  some { prompt_tokens := input_tokens, completion_tokens := output_tokens,
         total_tokens := total_tokens, model := model }

/-- `extract_openai_usage`: requires the `usage`, `prompt_tokens`,
`completion_tokens` AND `total_tokens` keys (each behind `?`); the
prompt+completion fallback applies only when the `total_tokens` key is
present but not a u64. -/
def extractOpenaiUsage (json : Json) : Option UsageMetrics := do
  let usage ← json.get "usage"
  let promptVal ← usage.get "prompt_tokens"
  let prompt_tokens := promptVal.as_u64.getD 0
  let completionVal ← usage.get "completion_tokens"
  let completion_tokens := completionVal.as_u64.getD 0
  let totalVal ← usage.get "total_tokens"
  let total_tokens := totalVal.as_u64.getD (prompt_tokens + completion_tokens)
  let model := ((json.get "model").bind Json.as_str).getD "unknown"
  some { prompt_tokens := prompt_tokens, completion_tokens := completion_tokens,
         total_tokens := total_tokens, model := model }

/-- The per-service dispatch shared by `extract_usage_from_response`
and `extract_from_sse_stream`. -/
def serviceExtract (service : String) (json : Json) : Option UsageMetrics :=
  if service = "claude" then extractClaudeUsage json
  else if service = "codex" then extractOpenaiUsage json
  else none

/-- Structural prefix test on character lists (`str::starts_with`). -/
def charsPrefix : List Char → List Char → Bool
  | [], _ => true
  | _ :: _, [] => false
  | a :: as, b :: bs => (a == b) && charsPrefix as bs

/-- The per-line step of `extract_from_sse_stream`: lines starting with
`"data: "` (6 bytes, sliced off), `[DONE]` skipped, payload JSON-decoded
and fed to the per-service extractor. -/
def sseEventUsage (parse : String → Option Json) (service : String)
    (line : String) : Option UsageMetrics :=
  if charsPrefix "data: ".data line.data then
    let data := String.mk (line.data.drop 6)
    if data = "[DONE]" then none
    else
      match parse data with
      | some json => serviceExtract service json
      | none => none
  else none

/-- The merge of one event's usage into the running totals (field-wise
sums; the model is overwritten when the event's model is non-empty). -/
def mergeUsage (total usage : UsageMetrics) : UsageMetrics :=
  { prompt_tokens := total.prompt_tokens + usage.prompt_tokens
    completion_tokens := total.completion_tokens + usage.completion_tokens
    total_tokens := total.total_tokens + usage.total_tokens
    model := if usage.model ≠ "" then usage.model else total.model }

/-- `extract_from_sse_stream` over the body's lines: fold the per-line
step, tracking whether any event yielded usage. -/
def extractFromSseStream (parse : String → Option Json) (service : String)
    (lines : List String) : Option UsageMetrics :=
  let r := lines.foldl
    (fun acc line =>
      match sseEventUsage parse service line with
      | some usage => (mergeUsage acc.1 usage, true)
      | none => acc)
    (UsageMetrics.default, false)
  if r.2 then some r.1 else none

/-- The trailing `\x0d` strip of `str::lines` (the accumulator holds the
line's characters in reverse). -/
def stripLineCr (acc : List Char) : List Char :=
  match acc with
  | c :: restAcc => if c = '\x0d' then restAcc else acc
  | [] => []

/-- Worker for `rustLines`. -/
def rustLinesAux : List Char → List Char → List String
  | acc, [] => if acc.isEmpty then [] else [String.mk acc.reverse]
  | acc, c :: rest =>
    if c = '\n' then String.mk (stripLineCr acc).reverse :: rustLinesAux [] rest
    else rustLinesAux (c :: acc) rest

/-- `str::lines`: split on `\n`, strip a `\x0d` before each `\n`, and
keep a final unterminated chunk only when non-empty. -/
def rustLines (s : String) : List String := rustLinesAux [] s.data

/-- `extract_usage_from_response`: try the body as one JSON document
(per-service schema), else fall back to the SSE stream walk.  Bodies are
`String`s, so the UTF-8 validity check of the source is identity. -/
def extractUsageFromResponse (parse : String → Option Json) (service : String)
    (body : String) : Option UsageMetrics :=
  match parse body with
  | some json => serviceExtract service json
  | none => extractFromSseStream parse service (rustLines body)

/-- The usages of the events that the SSE walk accepts, in order. -/
def sseUsages (parse : String → Option Json) (service : String)
    (lines : List String) : List UsageMetrics :=
  lines.filterMap (sseEventUsage parse service)

/-- Left fold of the model-overwrite rule. -/
def modelFold (a : String) (ms : List String) : String :=
  ms.foldl (fun x m => if m ≠ "" then m else x) a

/-- The last non-empty string of a list (empty when there is none). -/
def lastNonEmptyModel (ms : List String) : String :=
  ((ms.filter fun m => decide (m ≠ "")).getLast?).getD ""

theorem modelFold_eq_last (ms : List String) :
    ∀ a, modelFold a ms = ((ms.filter fun m => decide (m ≠ "")).getLast?).getD a := by
  induction ms with
  | nil => intro a; rfl
  | cons m ms ih =>
    intro a
    by_cases hm : m = ""
    · rw [modelFold, List.foldl_cons]
      have : (if m ≠ "" then m else a) = a := by simp [hm]
      rw [this]
      rw [← modelFold, ih a, List.filter_cons]
      simp [hm]
    · rw [modelFold, List.foldl_cons]
      have hiteq : (if m ≠ "" then m else a) = m := by simp [hm]
      rw [hiteq, ← modelFold, ih m]
      have hfc : (List.filter (fun m => decide (m ≠ "")) (m :: ms))
          = m :: List.filter (fun m => decide (m ≠ "")) ms := by
        rw [List.filter_cons]
        simp [hm]
      rw [hfc, List.getLast?_cons]
      simp

theorem extractFromSseStream_foldl (parse : String → Option Json) (service : String)
    (lines : List String) :
    ∀ acc : UsageMetrics × Bool,
      lines.foldl
        (fun acc line =>
          match sseEventUsage parse service line with
          | some usage => (mergeUsage acc.1 usage, true)
          | none => acc)
        acc
      = ({ prompt_tokens := acc.1.prompt_tokens
              + ((sseUsages parse service lines).map UsageMetrics.prompt_tokens).sum
           completion_tokens := acc.1.completion_tokens
              + ((sseUsages parse service lines).map UsageMetrics.completion_tokens).sum
           total_tokens := acc.1.total_tokens
              + ((sseUsages parse service lines).map UsageMetrics.total_tokens).sum
           model := modelFold acc.1.model
              ((sseUsages parse service lines).map UsageMetrics.model) },
         acc.2 || !(sseUsages parse service lines).isEmpty) := by
  induction lines with
  | nil =>
    intro acc
    simp [sseUsages, modelFold]
  | cons line rest ih =>
    intro acc
    rw [List.foldl_cons]
    cases h : sseEventUsage parse service line with
    | none =>
      have hu : sseUsages parse service (line :: rest) = sseUsages parse service rest := by
        rw [sseUsages, List.filterMap_cons, h]
        rfl
      simp only [h]
      rw [ih acc, hu]
    | some u =>
      have hu : sseUsages parse service (line :: rest) = u :: sseUsages parse service rest := by
        rw [sseUsages, List.filterMap_cons, h]
        rfl
      simp only [h]
      rw [ih (mergeUsage acc.1 u, true), hu]
      simp [mergeUsage, modelFold, Nat.add_assoc]

/-- C6 (amended): for a body that is not a single parseable JSON
document, `extract_usage_from_response` walks the `data: ` lines
(skipping `[DONE]`), JSON-decodes each payload, applies the per-service
extractor, and — when at least one payload yields usage — returns the
field-wise sums over the accepted payloads, with the model being the
last non-empty extracted model string; it returns none when no payload
yields usage.  (For codex an accepted payload must carry the
`prompt_tokens`, `completion_tokens` and `total_tokens` keys; a frame
missing any of them contributes nothing — see the counterexample.) -/
theorem C6_sse_usage_extraction (parse : String → Option Json) (service body : String)
    (hbody : parse body = none) :
    extractUsageFromResponse parse service body =
      (if (sseUsages parse service (rustLines body)).isEmpty then none
       else some
        { prompt_tokens :=
            ((sseUsages parse service (rustLines body)).map UsageMetrics.prompt_tokens).sum
          completion_tokens :=
            ((sseUsages parse service (rustLines body)).map UsageMetrics.completion_tokens).sum
          total_tokens :=
            ((sseUsages parse service (rustLines body)).map UsageMetrics.total_tokens).sum
          model :=
            lastNonEmptyModel
              ((sseUsages parse service (rustLines body)).map UsageMetrics.model) }) := by
  rw [extractUsageFromResponse, hbody, extractFromSseStream]
  rw [extractFromSseStream_foldl parse service (rustLines body) (UsageMetrics.default, false)]
  rw [lastNonEmptyModel, ← modelFold_eq_last]
  cases he : (sseUsages parse service (rustLines body)).isEmpty with
  | true => simp [he, UsageMetrics.default]
  | false => simp [he, UsageMetrics.default]

/-- The first SSE frame of the claim's example, as literally stated:
its usage object carries only `prompt_tokens`. -/
def frame1BadStr : String := "\x7b\"usage\":\x7b\"prompt_tokens\":5\x7d\x7d"

/-- Its JSON decoding. -/
def frame1BadJson : Json := .obj [("usage", .obj [("prompt_tokens", .num 5)])]

/-- The second SSE frame of the claim's example, as literally stated:
its usage object carries only `completion_tokens` and `total_tokens`. -/
def frame2BadStr : String :=
  "\x7b\"usage\":\x7b\"completion_tokens\":15,\"total_tokens\":20\x7d,\"model\":\"gpt-4\"\x7d"

/-- Its JSON decoding. -/
def frame2BadJson : Json :=
  .obj [("usage", .obj [("completion_tokens", .num 15), ("total_tokens", .num 20)]),
        ("model", .str "gpt-4")]

/-- The JSON parser restricted to the two literal frames (embedding
`serde_json::from_str` on the inputs this example exercises). -/
def parseC6Bad : String → Option Json := fun s =>
  if s = frame1BadStr then some frame1BadJson
  else if s = frame2BadStr then some frame2BadJson
  else none

/-- The two-frame SSE body of the claim's example, as literally
stated. -/
def bodyC6Bad : String :=
  "data: " ++ frame1BadStr ++ "\n" ++ "data: " ++ frame2BadStr ++ "\n\ndata: [DONE]\n"

/-- C6 counterexample: on the two-frame body as literally stated
(first frame usage `{prompt_tokens: 5}`, second
`{completion_tokens: 15, total_tokens: 20}` with model `gpt-4`), the
codex extractor rejects both frames — the first lacks
`completion_tokens`/`total_tokens`, the second lacks `prompt_tokens` —
so extraction yields none, not `{5, 15, 20, "gpt-4"}`. -/
theorem C6_counterexample_literal_frames :
    extractUsageFromResponse parseC6Bad "codex" bodyC6Bad = none
    ∧ extractUsageFromResponse parseC6Bad "codex" bodyC6Bad
      ≠ some { prompt_tokens := 5, completion_tokens := 15, total_tokens := 20,
               model := "gpt-4" } :=
  ⟨by decide, by decide⟩

/-- The first frame amended so the codex extractor accepts it: the
missing token fields are present as 0. -/
def frame1GoodStr : String :=
  "\x7b\"usage\":\x7b\"prompt_tokens\":5,\"completion_tokens\":0,\"total_tokens\":0\x7d\x7d"

/-- Its JSON decoding. -/
def frame1GoodJson : Json :=
  .obj [("usage", .obj [("prompt_tokens", .num 5), ("completion_tokens", .num 0),
        ("total_tokens", .num 0)])]

/-- The second frame amended likewise. -/
def frame2GoodStr : String :=
  "\x7b\"usage\":\x7b\"prompt_tokens\":0,\"completion_tokens\":15,\"total_tokens\":20\x7d,\"model\":\"gpt-4\"\x7d"

/-- Its JSON decoding. -/
def frame2GoodJson : Json :=
  .obj [("usage", .obj [("prompt_tokens", .num 0), ("completion_tokens", .num 15),
        ("total_tokens", .num 20)]), ("model", .str "gpt-4")]

/-- The JSON parser restricted to the two amended frames. -/
def parseC6Good : String → Option Json := fun s =>
  if s = frame1GoodStr then some frame1GoodJson
  else if s = frame2GoodStr then some frame2GoodJson
  else none

/-- The amended two-frame SSE body. -/
def bodyC6Good : String :=
  "data: " ++ frame1GoodStr ++ "\n" ++ "data: " ++ frame2GoodStr ++ "\n\ndata: [DONE]\n"

/-- C6 witness: the amended theorem instantiated on the amended
two-frame codex body, whose extraction sums to
`{5, 15, 20, "gpt-4"}`. -/
theorem C6_sse_usage_extraction_witness :
    extractUsageFromResponse parseC6Good "codex" bodyC6Good =
      (if (sseUsages parseC6Good "codex" (rustLines bodyC6Good)).isEmpty then none
       else some
        { prompt_tokens :=
            ((sseUsages parseC6Good "codex" (rustLines bodyC6Good)).map
              UsageMetrics.prompt_tokens).sum
          completion_tokens :=
            ((sseUsages parseC6Good "codex" (rustLines bodyC6Good)).map
              UsageMetrics.completion_tokens).sum
          total_tokens :=
            ((sseUsages parseC6Good "codex" (rustLines bodyC6Good)).map
              UsageMetrics.total_tokens).sum
          model :=
            lastNonEmptyModel
              ((sseUsages parseC6Good "codex" (rustLines bodyC6Good)).map
                UsageMetrics.model) })
    ∧ extractUsageFromResponse parseC6Good "codex" bodyC6Good
      = some { prompt_tokens := 5, completion_tokens := 15, total_tokens := 20,
               model := "gpt-4" } :=
  ⟨C6_sse_usage_extraction parseC6Good "codex" bodyC6Good (by rfl), by decide⟩

/-!
## Ledger (`src/logging/request_logger.rs`)

The single SQLite table is embedded as a list of rows in insertion
order; a row's 16 columns (in the shared INSERT/SELECT order) are the
`SqlValue` list `rowValues`.  `timestamp` holds the RFC-3339 rendering
of the `DateTime<Utc>`; for the fixed-width UTC strings the program
writes, SQLite's byte-wise TEXT ordering coincides with chronological
order, embedded through `strLeB`.
-/
structure RequestLog where
  id : String
  timestamp : String
  service : String
  method : String
  path : String
  status_code : Nat
  duration_ms : Nat
  error_message : Option String
  channel : Option String
  usage : Option UsageMetrics
  target_url : Option String
  request_body : Option String
  response_body : Option String
deriving DecidableEq, Repr

/-- A stored SQLite value. -/
inductive SqlValue where
  | null
  | int (i : Int)
  | text (s : String)
deriving DecidableEq, Repr

/-- Binding of an optional TEXT parameter. -/
def optText : Option String → SqlValue
  | some s => .text s
  | none => .null

/-- The 16 column values the INSERT of `log_request` binds, in the
column order shared by the table, the INSERT and both SELECTs. -/
def rowValues (log : RequestLog) : List SqlValue :=
  [ .text log.id, .text log.timestamp, .text log.service, .text log.method,
    .text log.path, .int log.status_code, .int log.duration_ms,
    optText log.error_message, optText log.channel, optText log.target_url,
    optText log.request_body, optText log.response_body,
    (match log.usage with | some u => .int u.prompt_tokens | none => .null),
    (match log.usage with | some u => .int u.completion_tokens | none => .null),
    (match log.usage with | some u => .int u.total_tokens | none => .null),
    (match log.usage with | some u => .text u.model | none => .null) ]

/-- Column access by index. -/
def colGet (row : List SqlValue) (i : Nat) : Except String SqlValue :=
  match row.get? i with
  | some v => .ok v
  | none => .error "InvalidColumnIndex"

/-- `rusqlite` `row.get::<String>`: TEXT only, no coercion. -/
def getText : SqlValue → Except String String
  | .text s => .ok s
  | _ => .error "InvalidColumnType"

/-- `rusqlite` `row.get::<i64>`: INTEGER only. -/
def getI64 : SqlValue → Except String Int
  | .int i => .ok i
  | _ => .error "InvalidColumnType"

/-- `rusqlite` `row.get::<Option<i64>>`: NULL or INTEGER. -/
def getOptI64 : SqlValue → Except String (Option Int)
  | .null => .ok none
  | .int i => .ok (some i)
  | .text _ => .error "InvalidColumnType"

/-- `rusqlite` `row.get::<Option<String>>`: NULL or TEXT. -/
def getOptText : SqlValue → Except String (Option String)
  | .null => .ok none
  | .text s => .ok (some s)
  | .int _ => .error "InvalidColumnType"

/-- The row-mapping closure of `get_logs`, column indices included: the
usage block reads columns 10–13 (`request_body`, `response_body`,
`prompt_tokens`, `completion_tokens`), column 10/11 as `Option<i64>` and
column 13 as `Option<String>`.  The RFC-3339 re-parse of the timestamp
is identity on the stored strings. -/
def decodeGetLogsRow (row : List SqlValue) : Except String RequestLog := do
  let tsv ← colGet row 1
  let timestamp ← getText tsv
  let v10 ← colGet row 10
  let up ← getOptI64 v10
  let v11 ← colGet row 11
  let uc ← getOptI64 v11
  let v12 ← colGet row 12
  let ut ← getOptI64 v12
  let v13 ← colGet row 13
  let um ← getOptText v13
  let usage : Option UsageMetrics :=
    match up, uc, ut, um with
    | some prompt, some completion, some total, some model =>
      some { prompt_tokens := prompt.toNat, completion_tokens := completion.toNat,
             total_tokens := total.toNat, model := model }
    | _, _, _, _ => none
  let idv ← colGet row 0
  let id ← getText idv
  let sv ← colGet row 2
  let service ← getText sv
  let mev ← colGet row 3
  let method ← getText mev
  let pav ← colGet row 4
  let path ← getText pav
  let scv ← colGet row 5
  let statusCode ← getI64 scv
  let duv ← colGet row 6
  let durationMs ← getI64 duv
  let emv ← colGet row 7
  let error_message ← getOptText emv
  let chv ← colGet row 8
  let channel ← getOptText chv
  let tuv ← colGet row 9
  let target_url ← getOptText tuv
  let rbv ← colGet row 10
  let request_body ← getOptText rbv
  let rsv ← colGet row 11
  let response_body ← getOptText rsv
  pure { id := id, timestamp := timestamp, service := service, method := method,
         path := path, status_code := statusCode.toNat, duration_ms := durationMs.toNat,
         error_message := error_message, channel := channel, usage := usage,
         target_url := target_url, request_body := request_body,
         response_body := response_body }

/-- The row-mapping closure of `get_log_by_id`: identical to the one of
`get_logs` except that the usage block reads columns 12–15, the actual
`prompt_tokens` / `completion_tokens` / `total_tokens` / `model`
columns. -/
def decodeGetByIdRow (row : List SqlValue) : Except String RequestLog := do
  let tsv ← colGet row 1
  let timestamp ← getText tsv
  let v12 ← colGet row 12
  let up ← getOptI64 v12
  let v13 ← colGet row 13
  let uc ← getOptI64 v13
  let v14 ← colGet row 14
  let ut ← getOptI64 v14
  let v15 ← colGet row 15
  let um ← getOptText v15
  let usage : Option UsageMetrics :=
    match up, uc, ut, um with
    | some prompt, some completion, some total, some model =>
      some { prompt_tokens := prompt.toNat, completion_tokens := completion.toNat,
             total_tokens := total.toNat, model := model }
    | _, _, _, _ => none
  let idv ← colGet row 0
  let id ← getText idv
  let sv ← colGet row 2
  let service ← getText sv
  let mev ← colGet row 3
  let method ← getText mev
  let pav ← colGet row 4
  let path ← getText pav
  let scv ← colGet row 5
  let statusCode ← getI64 scv
  let duv ← colGet row 6
  let durationMs ← getI64 duv
  let emv ← colGet row 7
  let error_message ← getOptText emv
  let chv ← colGet row 8
  let channel ← getOptText chv
  let tuv ← colGet row 9
  let target_url ← getOptText tuv
  let rbv ← colGet row 10
  let request_body ← getOptText rbv
  let rsv ← colGet row 11
  let response_body ← getOptText rsv
  pure { id := id, timestamp := timestamp, service := service, method := method,
         path := path, status_code := statusCode.toNat, duration_ms := durationMs.toNat,
         error_message := error_message, channel := channel, usage := usage,
         target_url := target_url, request_body := request_body,
         response_body := response_body }

/-- `RequestLogger::maintain_log_limit`: count the rows; when the count
exceeds the limit, delete the `count - max` rows whose ids head the
timestamp-ascending order. -/
def maintainLogLimit (maxLogs : Nat) (rows : List RequestLog) : List RequestLog :=
  let count := rows.length
  if count > maxLogs then
    let toDelete := count - maxLogs
    let victims :=
      ((sortBy (fun a b => strLeB a.timestamp b.timestamp) rows).take toDelete).map
        RequestLog.id
    rows.filter fun r => decide (r.id ∉ victims)
  else rows

/-- `RequestLogger::log_request`: the INSERT fails on a duplicate
primary key; otherwise the row is appended and the retention trim
runs. -/
def logRequest (maxLogs : Nat) (rows : List RequestLog) (log : RequestLog) :
    Except String (List RequestLog) :=
  if rows.any (fun r => r.id == log.id) then
    .error "UNIQUE constraint failed: request_logs.id"
  else .ok (maintainLogLimit maxLogs (rows ++ [log]))

/-- `collect::<Result<Vec<_>, _>>` over the row mapper: first error
aborts. -/
def mapE {α β : Type} (f : α → Except String β) : List α → Except String (List β)
  | [] => .ok []
  | a :: as =>
    match f a with
    | .error e => .error e
    | .ok b =>
      match mapE f as with
      | .error e => .error e
      | .ok bs => .ok (b :: bs)

/-- `RequestLogger::get_logs`: timestamp-descending order, `OFFSET`
skip, `LIMIT` cap, then the (buggy-index) row mapper. -/
def getLogs (limit offset : Nat) (rows : List RequestLog) :
    Except String (List RequestLog) :=
  let ordered := sortBy (fun a b => strLeB b.timestamp a.timestamp) rows
  mapE (fun r => decodeGetLogsRow (rowValues r)) ((ordered.drop offset).take limit)

/-- `RequestLogger::get_log_by_id`: the unique row with the id (ids are
the primary key), decoded by the by-id row mapper. -/
def getLogById (id : String) (rows : List RequestLog) :
    Except String (Option RequestLog) :=
  match rows.find? (fun r => r.id == id) with
  | some r => (decodeGetByIdRow (rowValues r)).map some
  | none => .ok none

theorem decodeGetByIdRow_roundtrip (r : RequestLog) :
    decodeGetByIdRow (rowValues r) = .ok r := by
  rcases r with ⟨id, ts, sv, me, pa, st, du, em, ch, us, tu, rb, rs⟩
  cases em <;> cases ch <;> cases us <;> cases tu <;> cases rb <;> cases rs <;> rfl

theorem decodeGetLogsRow_rowValues (r : RequestLog) :
    decodeGetLogsRow (rowValues r)
      = match r.request_body, r.response_body, r.usage with
        | none, none, none => .ok { r with usage := none }
        | _, _, _ => .error "InvalidColumnType" := by
  rcases r with ⟨id, ts, sv, me, pa, st, du, em, ch, us, tu, rb, rs⟩
  cases em <;> cases ch <;> cases us <;> cases tu <;> cases rb <;> cases rs <;> rfl

theorem mapE_ok_forall₂ {α β : Type} {f : α → Except String β} :
    ∀ {l : List α} {out : List β}, mapE f l = .ok out →
      List.Forall₂ (fun a b => f a = .ok b) l out := by
  intro l
  induction l with
  | nil =>
    intro out h
    rw [mapE] at h
    injection h with h
    rw [← h]
    exact List.Forall₂.nil
  | cons a as ih =>
    intro out h
    rw [mapE] at h
    cases hfa : f a with
    | error e =>
      rw [hfa] at h
      exact absurd h (by simp)
    | ok b =>
      rw [hfa] at h
      cases hrest : mapE f as with
      | error e =>
        rw [hrest] at h
        exact absurd h (by simp)
      | ok bs =>
        rw [hrest] at h
        injection h with h
        rw [← h]
        exact List.Forall₂.cons hfa (ih hrest)

theorem forall₂_exists_left {α β : Type} {R : α → β → Prop} {l₁ : List α} {l₂ : List β}
    (h : List.Forall₂ R l₁ l₂) : ∀ b ∈ l₂, ∃ a ∈ l₁, R a b := by
  induction h with
  | nil =>
    intro b hb
    simp at hb
  | cons h₁ h₂ ih =>
    intro b hb
    rcases List.mem_cons.mp hb with hb | hb
    · exact ⟨_, List.mem_cons_self _ _, hb ▸ h₁⟩
    · rcases ih b hb with ⟨a, ha, hr⟩
      exact ⟨a, List.mem_cons_of_mem _ ha, hr⟩

theorem pairwise_ts_transfer {l out : List RequestLog}
    (hf : List.Forall₂ (fun a b => a.timestamp = b.timestamp) l out)
    (hp : l.Pairwise fun a b => strLeB b.timestamp a.timestamp = true) :
    out.Pairwise fun a b => strLeB b.timestamp a.timestamp = true := by
  induction hf with
  | nil => exact List.Pairwise.nil
  | cons h₁ h₂ ih =>
    rcases List.pairwise_cons.mp hp with ⟨hhead, htail⟩
    refine List.pairwise_cons.mpr ⟨?_, ih htail⟩
    intro y hy
    rcases forall₂_exists_left h₂ y hy with ⟨x, hx, hxy⟩
    rw [← hxy, ← h₁]
    exact hhead x hx

theorem decodeGetLogsRow_ok_timestamp {a b : RequestLog}
    (hab : decodeGetLogsRow (rowValues a) = .ok b) : a.timestamp = b.timestamp := by
  rw [decodeGetLogsRow_rowValues] at hab
  rcases a with ⟨id, ts, sv, me, pa, st, du, em, ch, us, tu, rb, rs⟩
  cases us <;> cases rb <;> cases rs <;>
    first
      | exact Except.noConfusion hab
      | (injection hab with hab; rw [← hab])

theorem getLogs_pairwise_desc (limit offset : Nat) (rows out : List RequestLog)
    (h : getLogs limit offset rows = .ok out) :
    out.Pairwise fun a b => strLeB b.timestamp a.timestamp = true := by
  rw [getLogs] at h
  have hf := mapE_ok_forall₂ h
  have hsorted : (sortBy (fun a b => strLeB b.timestamp a.timestamp) rows).Pairwise
      (fun a b => strLeB b.timestamp a.timestamp = true) :=
    @sortBy_pairwise RequestLog (fun a b => strLeB b.timestamp a.timestamp)
      (fun a b c hab hbc => strLeB_trans hbc hab)
      (fun a b => strLeB_total b.timestamp a.timestamp) rows
  have hsub :
      (((sortBy (fun a b => strLeB b.timestamp a.timestamp) rows).drop offset).take
          limit).Sublist
        (sortBy (fun a b => strLeB b.timestamp a.timestamp) rows) :=
    (List.take_sublist _ _).trans (List.drop_sublist _ _)
  have hts : List.Forall₂ (fun a b => a.timestamp = b.timestamp)
      (((sortBy (fun a b => strLeB b.timestamp a.timestamp) rows).drop offset).take limit)
      out :=
    hf.imp fun a b hab => decodeGetLogsRow_ok_timestamp hab
  exact pairwise_ts_transfer hts (List.Pairwise.sublist hsub hsorted)

/-- C8: ledger retention.  After a successful `log_request` against a
ledger with unique ids, the table holds `min (previous + 1) max_logs`
rows, every evicted row's timestamp is no newer than any retained row's
timestamp, and `get_logs` output is ordered most-recent-first.  (The
`m = 3` instance of the claim is the witness.) -/
theorem C8_ledger_retention (maxLogs : Nat) (rows : List RequestLog) (log : RequestLog)
    (rowsAfter : List RequestLog)
    (hnd : (rows.map RequestLog.id).Nodup)
    (hok : logRequest maxLogs rows log = .ok rowsAfter) :
    rowsAfter.length = min (rows.length + 1) maxLogs
    ∧ (∀ e ∈ rows ++ [log], e ∉ rowsAfter →
        ∀ r ∈ rowsAfter, strLeB e.timestamp r.timestamp = true)
    ∧ (∀ limit offset out, getLogs limit offset rowsAfter = .ok out →
        out.Pairwise fun a b => strLeB b.timestamp a.timestamp = true) := by
  have hany : (rows.any fun r => r.id == log.id) = false := by
    by_cases h : (rows.any fun r => r.id == log.id) = true
    · rw [logRequest, if_pos h] at hok
      exact absurd hok (by simp)
    · exact Bool.eq_false_iff.mpr h
  have hAfter : rowsAfter = maintainLogLimit maxLogs (rows ++ [log]) := by
    rw [logRequest, if_neg (by rw [hany]; simp)] at hok
    injection hok with hok
    exact hok.symm
  have hidnotin : log.id ∉ rows.map RequestLog.id := by
    intro hmem
    rcases List.mem_map.mp hmem with ⟨r, hr, hrid⟩
    have hh : (rows.any fun r => r.id == log.id) = true :=
      List.any_eq_true.mpr ⟨r, hr, by simp [hrid]⟩
    rw [hany] at hh
    exact absurd hh (by simp)
  have hndFull : ((rows ++ [log]).map RequestLog.id).Nodup := by
    rw [List.map_append, List.nodup_append]
    refine ⟨hnd, List.nodup_singleton _, ?_⟩
    intro a ha hb
    simp only [List.map_cons, List.map_nil, List.mem_singleton] at hb
    subst hb
    exact hidnotin ha
  have hfullLen : (rows ++ [log]).length = rows.length + 1 := by simp
  have hperm : (sortBy (fun a b => strLeB a.timestamp b.timestamp) (rows ++ [log])).Perm
      (rows ++ [log]) := sortBy_perm _ _
  have hpair := @sortBy_pairwise RequestLog (fun a b => strLeB a.timestamp b.timestamp)
    (fun a b c hab hbc => strLeB_trans hab hbc) (fun a b => strLeB_total _ _)
    (rows ++ [log])
  by_cases htrim : (rows ++ [log]).length > maxLogs
  · have hAfter' : rowsAfter = (rows ++ [log]).filter fun r =>
        decide (r.id ∉ ((sortBy (fun a b => strLeB a.timestamp b.timestamp)
          (rows ++ [log])).take ((rows ++ [log]).length - maxLogs)).map RequestLog.id) := by
      rw [hAfter]
      simp only [maintainLogLimit]
      rw [if_pos htrim]
    generalize hascEq : sortBy (fun a b => strLeB a.timestamp b.timestamp) (rows ++ [log])
      = asc at hAfter' hperm hpair
    generalize hkEq : (rows ++ [log]).length - maxLogs = k at hAfter'
    have hascIds : (asc.map RequestLog.id).Nodup := (hperm.symm.map RequestLog.id).nodup hndFull
    have hascNodup : asc.Nodup := List.Nodup.of_map RequestLog.id hascIds
    have hmemT : ∀ r, r ∈ rows ++ [log] →
        (r.id ∈ (asc.take k).map RequestLog.id ↔ r ∈ asc.take k) := by
      intro r hr
      constructor
      · intro hv
        rcases List.mem_map.mp hv with ⟨t, htT, htid⟩
        have htasc : t ∈ asc := (List.take_sublist k asc).subset htT
        have hrasc : r ∈ asc := hperm.mem_iff.mpr hr
        have heq : t = r := List.inj_on_of_nodup_map hascIds htasc hrasc htid
        rw [← heq]
        exact htT
      · intro hT
        exact List.mem_map_of_mem _ hT
    have hdisj : ∀ x, x ∈ asc.take k → x ∈ asc.drop k → False := by
      intro x hxT hxD
      have hna : (asc.take k ++ asc.drop k).Nodup := by
        rw [List.take_append_drop k asc]
        exact hascNodup
      exact (List.nodup_append.mp hna).2.2 hxT hxD
    have hfT : (asc.take k).filter
        (fun r => decide (r.id ∉ (asc.take k).map RequestLog.id)) = [] := by
      rw [List.filter_eq_nil_iff]
      intro t htT
      have htfull : t ∈ rows ++ [log] := hperm.mem_iff.mp ((List.take_sublist k asc).subset htT)
      simp only [decide_eq_true_eq]
      intro hcon
      exact hcon ((hmemT t htfull).mpr htT)
    have hfD : (asc.drop k).filter
        (fun r => decide (r.id ∉ (asc.take k).map RequestLog.id)) = asc.drop k := by
      rw [List.filter_eq_self]
      intro d hdD
      simp only [decide_eq_true_eq]
      intro hdid
      have hdfull : d ∈ rows ++ [log] := hperm.mem_iff.mp ((List.drop_sublist k asc).subset hdD)
      exact hdisj d ((hmemT d hdfull).mp hdid) hdD
    have hfperm : rowsAfter.Perm
        ((asc.take k).filter (fun r => decide (r.id ∉ (asc.take k).map RequestLog.id))
          ++ (asc.drop k).filter (fun r => decide (r.id ∉ (asc.take k).map RequestLog.id))) := by
      rw [hAfter', ← List.filter_append, List.take_append_drop]
      exact List.Perm.filter _ hperm.symm
    have hlen : rowsAfter.length = maxLogs := by
      have h1 := hfperm.length_eq
      rw [hfT, hfD, List.nil_append] at h1
      have h2 : (asc.drop k).length = (rows ++ [log]).length - k := by
        rw [List.length_drop, hperm.length_eq]
      rw [h1, h2, ← hkEq]
      omega
    refine ⟨?_, ?_, ?_⟩
    · rw [hlen]
      rw [hfullLen] at htrim
      omega
    · intro e he hnotin r hrin
      have heT : e ∈ asc.take k := by
        have hpredE : ¬ (decide (e.id ∉ (asc.take k).map RequestLog.id) = true) := by
          intro hp
          exact hnotin (by rw [hAfter']; exact List.mem_filter.mpr ⟨he, hp⟩)
        have hin : e.id ∈ (asc.take k).map RequestLog.id := by
          by_contra hcon
          exact hpredE (by simpa using hcon)
        exact (hmemT e he).mp hin
      have hrD : r ∈ asc.drop k := by
        rw [hAfter'] at hrin
        rcases List.mem_filter.mp hrin with ⟨hrf, hpred⟩
        have hrid : r.id ∉ (asc.take k).map RequestLog.id := by simpa using hpred
        have hrasc : r ∈ asc := hperm.mem_iff.mpr hrf
        rw [← List.take_append_drop k asc] at hrasc
        rcases List.mem_append.mp hrasc with h | h
        · exact absurd ((hmemT r hrf).mpr h) hrid
        · exact h
      have hp2 := hpair
      rw [← List.take_append_drop k asc] at hp2
      exact (List.pairwise_append.mp hp2).2.2 e heT r hrD
    · intro limit offset out hout
      exact getLogs_pairwise_desc limit offset rowsAfter out hout
  · have hAfter' : rowsAfter = rows ++ [log] := by
      rw [hAfter]
      simp only [maintainLogLimit]
      rw [if_neg htrim]
    refine ⟨?_, ?_, ?_⟩
    · rw [hAfter', hfullLen]
      rw [hfullLen] at htrim
      omega
    · intro e he hnotin r hrin
      exact absurd (hAfter' ▸ he) hnotin
    · intro limit offset out hout
      exact getLogs_pairwise_desc limit offset rowsAfter out hout

/-- A ledger row with every optional column NULL, as the data-plane
`proxy_handler` writes them. -/
def mkRow (id ts : String) : RequestLog :=
  { id := id, timestamp := ts, service := "claude", method := "POST"
    path := "/v1/messages", status_code := 200, duration_ms := 12
    error_message := none, channel := some "claude", usage := none
    target_url := none, request_body := none, response_body := none }

/-- C8 witness: the claim's `max = 3` instance.  With rows at
timestamps `t1 < t2 < t3`, inserting a fourth at `t4` evicts the
oldest-timestamp row and leaves exactly 3; `list(10, 0)` returns the 3
retained rows newest first. -/
theorem C8_ledger_retention_witness :
    logRequest 3 [mkRow "r1" "t1", mkRow "r2" "t2", mkRow "r3" "t3"] (mkRow "r4" "t4")
      = .ok [mkRow "r2" "t2", mkRow "r3" "t3", mkRow "r4" "t4"]
    ∧ ([mkRow "r2" "t2", mkRow "r3" "t3", mkRow "r4" "t4"].length
        = min ([mkRow "r1" "t1", mkRow "r2" "t2", mkRow "r3" "t3"].length + 1) 3
      ∧ (∀ e ∈ [mkRow "r1" "t1", mkRow "r2" "t2", mkRow "r3" "t3"] ++ [mkRow "r4" "t4"],
          e ∉ [mkRow "r2" "t2", mkRow "r3" "t3", mkRow "r4" "t4"] →
          ∀ r ∈ [mkRow "r2" "t2", mkRow "r3" "t3", mkRow "r4" "t4"],
            strLeB e.timestamp r.timestamp = true)
      ∧ (∀ limit offset out,
          getLogs limit offset [mkRow "r2" "t2", mkRow "r3" "t3", mkRow "r4" "t4"] = .ok out →
          out.Pairwise fun a b => strLeB b.timestamp a.timestamp = true))
    ∧ getLogs 10 0 [mkRow "r2" "t2", mkRow "r3" "t3", mkRow "r4" "t4"]
      = .ok [mkRow "r4" "t4", mkRow "r3" "t3", mkRow "r2" "t2"] :=
  ⟨by rfl,
    C8_ledger_retention 3 [mkRow "r1" "t1", mkRow "r2" "t2", mkRow "r3" "t3"]
      (mkRow "r4" "t4") [mkRow "r2" "t2", mkRow "r3" "t3", mkRow "r4" "t4"]
      (by decide) (by rfl),
    by rfl⟩

/-- A ledger row carrying usage metrics (all other optional columns
NULL). -/
def rowWithUsage : RequestLog :=
  { id := "u1", timestamp := "t1", service := "codex", method := "POST"
    path := "/v1/responses", status_code := 200, duration_ms := 7
    error_message := none, channel := some "codex"
    usage := some { prompt_tokens := 1, completion_tokens := 2, total_tokens := 3,
                    model := "m" }
    target_url := none, request_body := none, response_body := none }

/-- C9: the ledger round-trip breaks in `get_logs`.  For a retained row
with usage metrics, `get_log_by_id` returns the entry field-for-field —
but `get_logs` reads the usage block from columns 10–13 instead of
12–15, so it reads the INTEGER `completion_tokens` column (index 13) as
`Option<String>` and fails with a column-type error instead of
returning the row.  (`get_log_by_id`, which reads columns 12–15, shows
the intended decoding.) -/
theorem C9_get_logs_usage_column_bug :
    getLogById "u1" [rowWithUsage] = .ok (some rowWithUsage)
    ∧ getLogs 10 0 [rowWithUsage] = .error "InvalidColumnType" :=
  ⟨by rfl, by rfl⟩

/-!
## ConfigStore (`src/config/config_manager.rs`)

The parsed configuration document is embedded as a `Toml` value
(`toml::Value`); the text-level TOML/JSON parsing attempts are outside
this model.  Only the retained-map part of `load_configs` is embedded:
the active-name fallback reads `HashMap` iteration order, which the
claims do not touch.
-/
inductive Toml where
  | str (s : String)
  | int (i : Int)
  | float (q : ℚ)
  | bool (b : Bool)
  | arr (elements : List Toml)
  | table (entries : List (String × Toml))

/-- `toml::Value::as_str`. -/
def Toml.as_str : Toml → Option String
  | .str s => some s
  | _ => none

/-- `toml::Value::as_float` (matches `Float` only — a TOML integer
yields none). -/
def Toml.as_float : Toml → Option ℚ
  | .float q => some q
  | _ => none

/-- `toml::Value::as_bool`. -/
def Toml.as_bool : Toml → Option Bool
  | .bool b => some b
  | _ => none

/-- The per-entry body of the `load_configs` loop: a table is retained
exactly when it supplies BOTH a string `base_url` and a string
`auth_token`; `api_key` is optional, `active` defaults to false and
`weight` to 0.0. -/
def mkConfigEntry (name : String) (value : Toml) : Option ServiceConfig :=
  match value with
  | .table configObj =>
    match (alookup configObj "base_url").bind Toml.as_str,
        (alookup configObj "auth_token").bind Toml.as_str with
    | some base_url, some auth_token =>
      let api_key := (alookup configObj "api_key").bind Toml.as_str
      let is_active := ((alookup configObj "active").bind Toml.as_bool).getD false
      let weight := ((alookup configObj "weight").bind Toml.as_float).getD 0
      some { name := name, base_url := base_url, api_key := api_key
             auth_token := some auth_token, active := is_active, weight := weight }
    | _, _ => none
  | _ => none

/-- The configuration map built by `ConfigManager::load_configs` (and
hence by `reload`) from the parsed document. -/
def loadConfigs (data : Toml) : List (String × ServiceConfig) :=
  match data with
  | .table entries =>
    entries.foldl
      (fun configs kv =>
        match mkConfigEntry kv.1 kv.2 with
        | some config => ains configs kv.1 config
        | none => configs)
      []
  | _ => []

theorem alookup_none_of_not_mem_keys {α : Type} {l : List (String × α)} {k : String}
    (h : k ∉ l.map Prod.fst) : alookup l k = none := by
  induction l with
  | nil => rfl
  | cons p ps ih =>
    rw [List.map_cons] at h
    have hp : ¬ p.1 = k := fun he => h (he ▸ List.mem_cons_self _ _)
    rw [alookup, if_neg hp]
    exact ih fun hm => h (List.mem_cons_of_mem _ hm)

theorem loadConfigs_foldl_not_mem (entries : List (String × Toml)) (name : String)
    (hmem : name ∉ entries.map Prod.fst) :
    ∀ acc, alookup (entries.foldl
        (fun configs kv =>
          match mkConfigEntry kv.1 kv.2 with
          | some config => ains configs kv.1 config
          | none => configs) acc) name = alookup acc name := by
  induction entries with
  | nil => intro acc; rfl
  | cons kv rest ih =>
    intro acc
    rw [List.map_cons] at hmem
    have hk : kv.1 ≠ name := fun he => hmem (he ▸ List.mem_cons_self _ _)
    have hrest : name ∉ rest.map Prod.fst := fun hm => hmem (List.mem_cons_of_mem _ hm)
    rw [List.foldl_cons]
    cases hmk : mkConfigEntry kv.1 kv.2 with
    | none =>
      simp only [hmk]
      exact ih hrest acc
    | some config =>
      simp only [hmk]
      rw [ih hrest (ains acc kv.1 config)]
      exact alookup_ains_ne acc kv.1 name config (Ne.symm hk)

theorem loadConfigs_foldl_mem (entries : List (String × Toml)) (name : String) :
    (entries.map Prod.fst).Nodup → name ∈ entries.map Prod.fst →
    ∀ acc, alookup acc name = none →
      alookup (entries.foldl
          (fun configs kv =>
            match mkConfigEntry kv.1 kv.2 with
            | some config => ains configs kv.1 config
            | none => configs) acc) name
        = (alookup entries name).bind (mkConfigEntry name) := by
  induction entries with
  | nil =>
    intro _ hmem
    simp at hmem
  | cons kv rest ih =>
    intro hnd hmem acc hacc
    rw [List.map_cons] at hnd
    rcases List.nodup_cons.mp hnd with ⟨hhead, htl⟩
    rw [List.foldl_cons]
    by_cases hk : kv.1 = name
    · have hrest : name ∉ rest.map Prod.fst := hk ▸ hhead
      rw [alookup, if_pos hk]
      cases hmk : mkConfigEntry kv.1 kv.2 with
      | none =>
        simp only [hmk]
        rw [loadConfigs_foldl_not_mem rest name hrest acc, hacc, ← hk]
        exact hmk.symm
      | some config =>
        simp only [hmk]
        rw [loadConfigs_foldl_not_mem rest name hrest (ains acc kv.1 config)]
        rw [hk] at hmk ⊢
        rw [alookup_ains_self]
        exact hmk.symm
    · have hmem' : name ∈ rest.map Prod.fst := by
        rw [List.map_cons] at hmem
        rcases List.mem_cons.mp hmem with h | h
        · exact absurd h.symm hk
        · exact h
      cases hmk : mkConfigEntry kv.1 kv.2 with
      | none =>
        simp only [hmk]
        rw [ih htl hmem' acc hacc, alookup, if_neg hk]
      | some config =>
        simp only [hmk]
        rw [ih htl hmem' (ains acc kv.1 config)
          ((alookup_ains_ne acc kv.1 name config (Ne.symm hk)).trans hacc)]
        rw [alookup, if_neg hk]

/-- C10 (amended): a reloaded configuration document retains exactly the
upstream tables that supply BOTH a string `base_url` and a string
`auth_token` (`api_key` remains optional): the loaded map at each name
is precisely `mkConfigEntry` of the document's entry at that name. -/
theorem C10_load_configs_retention (entries : List (String × Toml))
    (hnd : (entries.map Prod.fst).Nodup) (name : String) :
    alookup (loadConfigs (.table entries)) name
      = (alookup entries name).bind (mkConfigEntry name) := by
  rw [loadConfigs]
  by_cases hmem : name ∈ entries.map Prod.fst
  · exact loadConfigs_foldl_mem entries name hnd hmem [] rfl
  · rw [loadConfigs_foldl_not_mem entries name hmem []]
    rw [alookup_none_of_not_mem_keys hmem]
    rfl

/-- The document of the claim's example: one upstream table supplying
`base_url` and `api_key` but no `auth_token`. -/
def docNoAuthToken : Toml :=
  .table [("a", .table [("base_url", .str "https://x.example"), ("api_key", .str "k")])]

/-- C10 counterexample: a table with `base_url` and `api_key` but no
`auth_token` is dropped by `load_configs` — the loaded map is empty, so
the descriptor is absent from `list()` after reload, contrary to the
claim. -/
theorem C10_counterexample_auth_token_required :
    loadConfigs docNoAuthToken = [] ∧ alookup (loadConfigs docNoAuthToken) "a" = none :=
  ⟨by rfl, by rfl⟩

/-- The entries of a document whose upstream table supplies `base_url`
and `auth_token` but no `api_key`. -/
def entriesNoApiKey : List (String × Toml) :=
  [("a", .table [("base_url", .str "https://x.example"), ("auth_token", .str "t")])]

/-- C10 witness: the amended retention rule instantiated on a
document whose table supplies `base_url` and `auth_token` but no
`api_key` — the descriptor is retained (with `api_key = none`). -/
theorem C10_load_configs_retention_witness :
    alookup (loadConfigs (.table entriesNoApiKey)) "a"
      = (alookup entriesNoApiKey "a").bind (mkConfigEntry "a")
    ∧ alookup (loadConfigs (.table entriesNoApiKey)) "a"
      = some { name := "a", base_url := "https://x.example", api_key := none
               auth_token := some "t", active := false, weight := 0 } :=
  ⟨C10_load_configs_retention entriesNoApiKey (by decide) "a", by rfl⟩
